import Mathlib

set_option linter.unusedVariables false

/- Verification of the RNMC kinetic Monte Carlo core against its
   natural-language specification: a shallow embedding of the
   reaction-network engine (src/GMC/reaction_network.h), the nanoparticle
   engine (src/NPMC/nano_particle.h) and the simulation driver
   (src/core/simulation.h).

   Modelling conventions: machine doubles become rationals, machine ints
   become Int (indices that the code assumes nonnegative become Nat),
   std::vector becomes List with List.set / List.getD access,
   std::set of int becomes Finset Nat, std::optional becomes Option,
   and a fatal raise(SIGINT) becomes an Except.error carrying the state
   at the moment of the interrupt.  Stateful member functions become
   explicit state passing. -/

/-- Reaction of the network model (struct Reaction, src/GMC/reaction_network.h).
    The two-slot arrays int reactants[2] and int products[2] are modelled as
    pairs; species indices index the state vector and are modelled as Nat. -/
structure Reaction where
  number_of_reactants : Nat
  number_of_products : Nat
  reactants : Nat × Nat
  products : Nat × Nat
  rate : ℚ
deriving DecidableEq, Inhabited

/-- Access reactants[m] for m < 2, mirroring the C++ array indexing. -/
def Reaction.reactant (r : Reaction) (m : Nat) : Nat :=
  if m = 0 then r.reactants.1 else r.reactants.2

/-- Access products[n] for n < 2, mirroring the C++ array indexing. -/
def Reaction.product (r : Reaction) (n : Nat) : Nat :=
  if n = 0 then r.products.1 else r.products.2

/-- Per-reaction node of the lazy dependency graph (struct DependentsNode).
    The node-local mutex is dropped: a single trajectory is sequential and
    the per-node lock only serialises concurrent trajectories, which are out
    of scope of the claims. -/
structure DependentsNode where
  dependents : Option (List Nat)
  number_of_occurrences : Int
deriving DecidableEq, Inhabited

/-- The DependentsNode default constructor: absent list, zero counter. -/
def DependentsNode.init : DependentsNode :=
  { dependents := none, number_of_occurrences := 0 }

/-- The in-memory reaction network (struct ReactionNetwork): the loaded
    reaction table, initial state, the three rate factors and the lazy
    dependency threshold.  The dependency graph itself is passed explicitly
    where it is mutated. -/
structure ReactionNetwork where
  reactions : List Reaction
  initial_state : List Int
  factor_zero : ℚ
  factor_two : ℚ
  factor_duplicate : ℚ
  dependency_threshold : Int
deriving DecidableEq, Inhabited

/-- ReactionNetwork::compute_propensity (src/GMC/reaction_network.h:271-305):
    branches on the number of reactants; the two-reactant case further
    branches on whether the two reactant species coincide. -/
def ReactionNetwork.compute_propensity (rn : ReactionNetwork)
    (state : List Int) (reaction_index : Nat) : ℚ :=
  let reaction := rn.reactions.getD reaction_index default
  if reaction.number_of_reactants = 0 then
    rn.factor_zero * reaction.rate
  else if reaction.number_of_reactants = 1 then
    ((state.getD reaction.reactants.1 0 : Int) : ℚ) * reaction.rate
  else if reaction.reactants.1 = reaction.reactants.2 then
    rn.factor_duplicate * rn.factor_two
      * ((state.getD reaction.reactants.1 0 : Int) : ℚ)
      * (((state.getD reaction.reactants.1 0 : Int) : ℚ) - 1)
      * reaction.rate
  else
    rn.factor_two
      * ((state.getD reaction.reactants.1 0 : Int) : ℚ)
      * ((state.getD reaction.reactants.2 0 : Int) : ℚ)
      * reaction.rate

/-- The shared-species test at the heart of
    ReactionNetwork::compute_dependency_node (src/GMC/reaction_network.h:218-237):
    reaction i depends on reaction j when some reactant of i equals some
    reactant or some product of j.  The C++ nested loops over
    l < number_of_reactants(i), m < number_of_reactants(j),
    n < number_of_products(j) are rendered as bounded existentials. -/
def ReactionNetwork.shares_species (rn : ReactionNetwork) (i j : Nat) : Bool :=
  let ri := rn.reactions.getD i default
  let rj := rn.reactions.getD j default
  decide (∃ l, l < ri.number_of_reactants ∧
    ((∃ m, m < rj.number_of_reactants ∧ ri.reactant l = rj.reactant m) ∨
     (∃ n, n < rj.number_of_products ∧ ri.reactant l = rj.product n)))

/-- ReactionNetwork::compute_dependency_node (src/GMC/reaction_network.h:210-269).
    The C++ makes two passes: one to count the dependent reactions, and a
    fill loop that scans reaction indices from 0 upward collecting matches
    until the count is reached.  Since the count equals the total number of
    matches below reactions.size(), the fill loop collects exactly the
    matching indices in increasing order, i.e. this filter. -/
def ReactionNetwork.compute_dependency_node (rn : ReactionNetwork)
    (reaction_index : Nat) : List Nat :=
  (List.range rn.reactions.length).filter
    (fun i => rn.shares_species i reaction_index)

/-- One call of ReactionNetwork::get_dependency_node
    (src/GMC/reaction_network.h:193-208) viewed at the node it touches:
    under the node's lock, if the list is absent and the counter has reached
    dependency_threshold, compute and store the list; then increment the
    counter. -/
def ReactionNetwork.get_dependency_node_step (rn : ReactionNetwork)
    (reaction_index : Nat) (node : DependentsNode) : DependentsNode :=
  let node1 :=
    if node.dependents = none ∧
        rn.dependency_threshold ≤ node.number_of_occurrences then
      { node with dependents := some (rn.compute_dependency_node reaction_index) }
    else node
  { node1 with number_of_occurrences := node1.number_of_occurrences + 1 }

/-- ReactionNetwork::get_dependency_node at the level of the whole
    dependency graph: mutate the node for reaction_index and return the
    new graph together with the (possibly still absent) list the C++
    returns by reference. -/
def ReactionNetwork.get_dependency_node (rn : ReactionNetwork)
    (dependency_graph : List DependentsNode) (reaction_index : Nat) :
    List DependentsNode × Option (List Nat) :=
  let node := dependency_graph.getD reaction_index default
  let node1 := rn.get_dependency_node_step reaction_index node
  (dependency_graph.set reaction_index node1, node1.dependents)

/-- ReactionNetwork::update_state (src/GMC/reaction_network.h:307-323):
    decrement the count of each reactant (with multiplicity), then
    increment the count of each product (with multiplicity). -/
def ReactionNetwork.update_state (rn : ReactionNetwork) (state : List Int)
    (reaction_index : Nat) : List Int :=
  let r := rn.reactions.getD reaction_index default
  let state1 := (List.range r.number_of_reactants).foldl
    (fun s m => s.set (r.reactant m) (s.getD (r.reactant m) 0 - 1)) state
  (List.range r.number_of_products).foldl
    (fun s n => s.set (r.product n) (s.getD (r.product n) 0 + 1)) state1

/-- Modelled from the spec: struct Update lives in src/core/solvers.h, which
    is not among the sources; its two fields are fixed by the designated
    initializers Update{.index, .propensity} in src/GMC/reaction_network.h
    and by the spec (an Update carries a reaction index and its new
    propensity). -/
structure Update where
  index : Nat
  propensity : ℚ
deriving DecidableEq, Inhabited

/-- ReactionNetwork::update_propensities (src/GMC/reaction_network.h:326-369):
    call get_dependency_node for the fired reaction; if the dependent list is
    present, emit an Update for each listed reaction, otherwise emit an
    Update for every reaction of the network.  The update_function callback
    is modelled by accumulating the emitted updates in order. -/
def ReactionNetwork.update_propensities (rn : ReactionNetwork)
    (dependency_graph : List DependentsNode) (state : List Int)
    (next_reaction : Nat) : List DependentsNode × List Update :=
  let res := rn.get_dependency_node dependency_graph next_reaction
  match res.2 with
  | some dependents =>
      (res.1, dependents.foldl
        (fun acc i =>
          acc ++ [{ index := i, propensity := rn.compute_propensity state i }])
        [])
  | none =>
      (res.1, (List.range rn.reactions.length).foldl
        (fun acc i =>
          acc ++ [{ index := i, propensity := rn.compute_propensity state i }])
        [])

/-- Reactions of the network are well formed when their reactant and product
    counts fit the two-slot arrays, as the data model of the spec requires;
    the C++ indexes the arrays out of bounds otherwise. -/
def ReactionNetwork.wf (rn : ReactionNetwork) : Prop :=
  ∀ r ∈ rn.reactions, r.number_of_reactants ≤ 2 ∧ r.number_of_products ≤ 2

instance (rn : ReactionNetwork) : Decidable rn.wf := by
  unfold ReactionNetwork.wf
  infer_instance

/-- Modelled from the spec: struct Event lives in src/core/solvers.h, which
    is not among the sources; its fields are fixed by the uses event.index
    and event.dt in src/core/simulation.h and by the spec (the solver
    yields a reaction index and a waiting time). -/
structure Event where
  index : Nat
  dt : ℚ
deriving DecidableEq, Inhabited

/-- HistoryElement (src/core/simulation.h:6-9): the reaction which fired
    and the time after it occurred. -/
structure HistoryElement where
  reaction_id : Nat
  time : ℚ
deriving DecidableEq, Inhabited

/-- Modelled from the spec: the abstract solver contract of the spec.  The
    driver is a template over a Solver type; a solver draws an event (also
    advancing its internal random state) and accepts propensity updates. -/
structure SolverOps (σ : Type) where
  event : σ → Option Event × σ
  update : σ → Update → σ

/-- The slice of the abstract Model contract the driver uses: a state
    update and the list of propensity updates the model pushes through the
    update_function callback. -/
structure ModelOps where
  update_state : List Int → Nat → List Int
  update_propensities : List Int → Nat → List Update

/-- The mutable driver state of struct Simulation (src/core/simulation.h):
    state vector, time, time_cutoff, step counter, the owned solver and the
    history buffer.  The model reference and the update_function lambda are
    passed explicitly (ModelOps / SolverOps); the seed only feeds the
    abstract solver and is absorbed into the solver state. -/
structure Simulation (σ : Type) where
  state : List Int
  time : ℚ
  time_cutoff : ℚ
  step : Nat
  solver : σ
  history : List HistoryElement
deriving DecidableEq

/-- The Simulation constructor (src/core/simulation.h:24-40): time 0,
    step 0, history sized step_cutoff + 1 (default-constructed elements),
    state copied from the model's initial state. -/
def Simulation.construct {σ : Type} (initial_state : List Int)
    (time_cutoff : ℚ) (step_cutoff : Nat) (solver0 : σ) : Simulation σ :=
  { state := initial_state, time := 0, time_cutoff := time_cutoff,
    step := 0, solver := solver0,
    history := List.replicate (step_cutoff + 1) default }

/-- Simulation::execute_step (src/core/simulation.h:48-88): ask the solver
    for an event; if none, stop.  Otherwise advance time, record history at
    index step, increment step, update the model state, push the propensity
    updates into the solver, and continue iff time < time_cutoff. -/
def Simulation.execute_step {σ : Type} (S : SolverOps σ) (M : ModelOps)
    (sim : Simulation σ) : Bool × Simulation σ :=
  match S.event sim.solver with
  | (none, solver1) => (false, { sim with solver := solver1 })
  | (some event, solver1) =>
      let next_reaction := event.index
      let time1 := sim.time + event.dt
      let state1 := M.update_state sim.state next_reaction
      (decide (time1 < sim.time_cutoff),
       { state := state1,
         time := time1,
         time_cutoff := sim.time_cutoff,
         step := sim.step + 1,
         solver := (M.update_propensities state1 next_reaction).foldl
           S.update solver1,
         history := sim.history.set sim.step
           { reaction_id := next_reaction, time := time1 } })

/-- Instrumentation: the history index written by one execute_step call
    ([] when the solver yields no event, [step] when it fires). -/
def Simulation.step_write {σ : Type} (S : SolverOps σ)
    (sim : Simulation σ) : List Nat :=
  match (S.event sim.solver).1 with
  | none => []
  | some _ => [sim.step]

/-- Simulation::execute_steps (src/core/simulation.h:90-96): loop
    execute_step until it returns stop, or until step > step_cutoff.
    Returns the final driver state together with the instrumented list of
    history indices written during the run. -/
def Simulation.execute_steps {σ : Type} (S : SolverOps σ) (M : ModelOps)
    (step_cutoff : Nat) (sim : Simulation σ) : Simulation σ × List Nat :=
  match h : Simulation.execute_step S M sim with
  | (false, s1) => (s1, Simulation.step_write S sim)
  | (true, s1) =>
      if hgt : s1.step > step_cutoff then (s1, Simulation.step_write S sim)
      else
        let r := Simulation.execute_steps S M step_cutoff s1
        (r.1, Simulation.step_write S sim ++ r.2)
termination_by step_cutoff + 1 - sim.step
decreasing_by
  have hstep : s1.step = sim.step + 1 := by
    unfold Simulation.execute_step at h
    rcases hev : S.event sim.solver with ⟨e, s2⟩
    rw [hev] at h
    cases e with
    | none => simp at h
    | some ev =>
        simp only [Prod.mk.injEq] at h
        rw [← h.2]
  omega

/-- Site (src/NPMC/nano_particle.h:11-16): a position and a species. -/
structure Site where
  x : ℚ
  y : ℚ
  z : ℚ
  species_id : Nat
deriving DecidableEq, Inhabited

/-- Interaction (declared in NPMC/sql_types.h, absent from the sources;
    every field is fixed by the constructor of NanoParticle, which builds
    Interaction values with designated initializers
    src/NPMC/nano_particle.h:240-256).  The two-slot arrays are pairs. -/
structure Interaction where
  interaction_id : Nat
  number_of_sites : Nat
  species_id : Nat × Nat
  left_state : Int × Int
  right_state : Int × Int
  rate : ℚ
deriving DecidableEq, Inhabited

/-- Access left_state[k] for k < 2. -/
def Interaction.left (i : Interaction) (k : Nat) : Int :=
  if k = 0 then i.left_state.1 else i.left_state.2

/-- Access right_state[k] for k < 2. -/
def Interaction.right (i : Interaction) (k : Nat) : Int :=
  if k = 0 then i.right_state.1 else i.right_state.2

/-- The nanoparticle Reaction (declared in NPMC/sql_types.h, absent from
    the sources; fields fixed by their uses throughout
    src/NPMC/nano_particle.h): one or two site ids (-1 in the second slot
    for one-site reactions), the grounded interaction and the effective
    rate. -/
structure NPMC.Reaction where
  site_id : Int × Int
  interaction : Interaction
  rate : ℚ
deriving DecidableEq, Inhabited

/-- Access site_id[k] for k < 2. -/
def NPMC.Reaction.sid (r : NPMC.Reaction) (k : Nat) : Int :=
  if k = 0 then r.site_id.1 else r.site_id.2

/-- One row of the interactions table (NPMC/sql_types.h, absent from the
    sources; fields fixed by the reads in the NanoParticle constructor,
    src/NPMC/nano_particle.h:234-266). -/
structure InteractionSql where
  number_of_sites : Nat
  species_id_1 : Nat
  species_id_2 : Nat
  left_state_1 : Int
  left_state_2 : Int
  right_state_1 : Int
  right_state_2 : Int
  rate : ℚ
deriving DecidableEq, Inhabited

/-- The one-site interactions collected by the constructor loop
    (src/NPMC/nano_particle.h:234-266): rows with number_of_sites = 1, each
    tagged with its dense interaction_counter value, i.e. its row index. -/
def one_site_interactions_of (rows : List InteractionSql) : List Interaction :=
  (rows.enum.filter (fun p => p.2.number_of_sites == 1)).map
    (fun p => Interaction.mk p.1 p.2.number_of_sites
      (p.2.species_id_1, p.2.species_id_2)
      (p.2.left_state_1, p.2.left_state_2)
      (p.2.right_state_1, p.2.right_state_2) p.2.rate)

/-- The two-site interactions collected by the constructor loop. -/
def two_site_interactions_of (rows : List InteractionSql) : List Interaction :=
  (rows.enum.filter (fun p => p.2.number_of_sites == 2)).map
    (fun p => Interaction.mk p.1 p.2.number_of_sites
      (p.2.species_id_1, p.2.species_id_2)
      (p.2.left_state_1, p.2.left_state_2)
      (p.2.right_state_1, p.2.right_state_2) p.2.rate)

/-- max of left_state_1 over all loaded rows, starting from 0: the running
    num_states accumulator of the constructor loop
    (src/NPMC/nano_particle.h:259-262) before its final increment. -/
def max_left_state (rows : List InteractionSql) : Int :=
  rows.foldl
    (fun ns row => if ns < row.left_state_1 then row.left_state_1 else ns) 0

/-- num_states after the post-loop increment
    (src/NPMC/nano_particle.h:267-268): 1 plus the maximum left_state_1. -/
def num_states_of (rows : List InteractionSql) : Int :=
  max_left_state rows + 1

/-- The freshly resized one-site tensor (src/NPMC/nano_particle.h:271-274):
    num_species rows of num_states empty buckets. -/
def empty_one_site_map (num_species num_states : Nat) :
    List (List (List Interaction)) :=
  List.replicate num_species (List.replicate num_states [])

/-- The freshly resized two-site tensor (src/NPMC/nano_particle.h:276-285). -/
def empty_two_site_map (num_species num_states : Nat) :
    List (List (List (List (List Interaction)))) :=
  List.replicate num_species (List.replicate num_species
    (List.replicate num_states (List.replicate num_states [])))

/-- push_back of one interaction into
    one_site_interactions_map[species_id[0]][left_state[0]]
    (src/NPMC/nano_particle.h:288-291). -/
def push_one_site (m : List (List (List Interaction)))
    (i : Interaction) : List (List (List Interaction)) :=
  let row := m.getD i.species_id.1 []
  m.set i.species_id.1
    (row.set i.left_state.1.toNat (row.getD i.left_state.1.toNat [] ++ [i]))

/-- push_back of one interaction into
    two_site_interactions_map[sp0][sp1][st0][st1]
    (src/NPMC/nano_particle.h:293-297). -/
def push_two_site (m : List (List (List (List (List Interaction)))))
    (i : Interaction) : List (List (List (List (List Interaction)))) :=
  let mA := m.getD i.species_id.1 []
  let mAB := mA.getD i.species_id.2 []
  let mABC := mAB.getD i.left_state.1.toNat []
  m.set i.species_id.1 (mA.set i.species_id.2
    (mAB.set i.left_state.1.toNat
      (mABC.set i.left_state.2.toNat
        (mABC.getD i.left_state.2.toNat [] ++ [i]))))

/-- The fully built one-site lookup tensor of the constructor. -/
def one_site_interactions_map_of (num_species : Nat)
    (rows : List InteractionSql) : List (List (List Interaction)) :=
  (one_site_interactions_of rows).foldl push_one_site
    (empty_one_site_map num_species (num_states_of rows).toNat)

/-- The fully built two-site lookup tensor of the constructor. -/
def two_site_interactions_map_of (num_species : Nat)
    (rows : List InteractionSql) :
    List (List (List (List (List Interaction)))) :=
  (two_site_interactions_of rows).foldl push_two_site
    (empty_two_site_map num_species (num_states_of rows).toNat)

/-- The "linear" distance factor lambda
    (src/NPMC/nano_particle.h:180-182). -/
def linear_distance_factor (interaction_radius_bound : ℚ) : ℚ → ℚ :=
  fun distance => 1 - distance / interaction_radius_bound

/-- The "inverse_cubic" distance factor lambda
    (src/NPMC/nano_particle.h:184-186): despite the tag, 1 / d^6. -/
def inverse_cubic_distance_factor : ℚ → ℚ :=
  fun distance => 1 / distance ^ 6

/-- The in-memory nanoparticle model (struct NanoParticle,
    src/NPMC/nano_particle.h:30-125).  The distance matrix is carried as
    data: compute_distance_matrix fills it with Euclidean square roots,
    which have no computable rational embedding; the claims under
    verification fix the pairwise distances directly.  The live reaction
    vector and the per-site index are passed explicitly where mutated. -/
structure NanoParticle where
  degrees_of_freedom : List Nat
  sites : List Site
  distance_matrix : List (List ℚ)
  one_site_interactions_map : List (List (List Interaction))
  two_site_interactions_map : List (List (List (List (List Interaction))))
  initial_state : List Int
  one_site_interaction_factor : ℚ
  two_site_interaction_factor : ℚ
  interaction_radius_bound : ℚ
  distance_factor_function : ℚ → ℚ

/-- The lookup one_site_interactions_map[sp][st]
    (out-of-bounds indices yield the empty bucket; the C++ behaviour there
    is undefined, see the C10 theorems). -/
def NanoParticle.one_site_available (M : NanoParticle) (sp : Nat)
    (st : Int) : List Interaction :=
  (M.one_site_interactions_map.getD sp []).getD st.toNat []

/-- The lookup two_site_interactions_map[sp0][sp1][st0][st1]. -/
def NanoParticle.two_site_available (M : NanoParticle) (sp0 sp1 : Nat)
    (st0 st1 : Int) : List Interaction :=
  ((((M.two_site_interactions_map.getD sp0 []).getD sp1 []
      ).getD st0.toNat []).getD st1.toNat [])

/-- The initial reaction enumeration of the NanoParticle constructor
    (src/NPMC/nano_particle.h:316-372), restricted to the reaction list it
    builds (the parallel site_reaction_dependency bookkeeping is not part
    of the claims about this loop): for every site, its one-site reactions,
    then for every other site within the radius bound, the reactions with
    site 0 as donor followed by the reactions with site 1 as donor. -/
def NanoParticle.initial_reactions (M : NanoParticle)
    (current_state : List Int) : List NPMC.Reaction :=
  (List.range M.sites.length).foldl (fun acc site_id_0 =>
    let site_0_state := current_state.getD site_id_0 0
    let site_0_species_id := (M.sites.getD site_id_0 default).species_id
    let ones := (M.one_site_available site_0_species_id site_0_state).map
      (fun interaction => NPMC.Reaction.mk ((site_id_0 : Int), -1)
        interaction (interaction.rate * M.one_site_interaction_factor))
    let twos := (List.range M.sites.length).foldl (fun acc2 site_id_1 =>
      if site_id_0 ≠ site_id_1 then
        let site_1_state := current_state.getD site_id_1 0
        let site_1_species_id := (M.sites.getD site_id_1 default).species_id
        let distance := (M.distance_matrix.getD site_id_0 []).getD site_id_1 0
        if distance < M.interaction_radius_bound then
          let fwd := (M.two_site_available site_0_species_id
              site_1_species_id site_0_state site_1_state).map
            (fun interaction =>
              NPMC.Reaction.mk ((site_id_0 : Int), (site_id_1 : Int))
                interaction
                (M.distance_factor_function distance * interaction.rate
                  * M.two_site_interaction_factor))
          let bwd := (M.two_site_available site_1_species_id
              site_0_species_id site_1_state site_0_state).map
            (fun interaction =>
              NPMC.Reaction.mk ((site_id_1 : Int), (site_id_0 : Int))
                interaction
                (M.distance_factor_function distance * interaction.rate
                  * M.two_site_interaction_factor))
          acc2 ++ fwd ++ bwd
        else acc2
      else acc2) ([] : List NPMC.Reaction)
    acc ++ ones ++ twos) []

/-- The loop body of NanoParticle::update_state over the remaining site
    slots: check the precondition state[site_id[k]] = left_state[k], raise
    on mismatch, else write right_state[k] and continue. -/
def NanoParticle.update_state_go (reaction : NPMC.Reaction) :
    List Nat → List Int → Except (List Int) (List Int)
  | [], st => Except.ok st
  | k :: ks, st =>
      if st.getD (reaction.sid k).toNat 0 ≠ reaction.interaction.left k then
        Except.error st
      else
        NanoParticle.update_state_go reaction ks
          (st.set (reaction.sid k).toNat (reaction.interaction.right k))

/-- NanoParticle::update_state (src/NPMC/nano_particle.h:385-405): for each
    site slot k < number_of_sites in order, check the precondition and then
    write the right state.  raise(SIGINT) is modelled as Except.error
    carrying the state at the moment of the interrupt. -/
def NanoParticle.update_state (state : List Int)
    (reaction : NPMC.Reaction) : Except (List Int) (List Int) :=
  NanoParticle.update_state_go reaction
    (List.range reaction.interaction.number_of_sites) state

/-- The reaction regeneration loop at the head of
    NanoParticle::update_reactions (src/NPMC/nano_particle.h:413-481): for
    each affected site of the fired reaction, enumerate its one-site
    reactions from its post-update state, then for every other site within
    the radius bound the two-site reactions in both donor orientations,
    skipping the acceptor-donor orientation against the other affected
    site to avoid adding that ordered pair twice. -/
def NanoParticle.new_reactions (M : NanoParticle) (state : List Int)
    (reaction : NPMC.Reaction) : List NPMC.Reaction :=
  (List.range reaction.interaction.number_of_sites).foldl (fun acc k =>
    let site_id_0 := (reaction.sid k).toNat
    let other_site_id := reaction.sid (1 - k)
    let site_0_state := reaction.interaction.right k
    let site_0_species_id := (M.sites.getD site_id_0 default).species_id
    let ones := (M.one_site_available site_0_species_id site_0_state).map
      (fun interaction => NPMC.Reaction.mk ((site_id_0 : Int), -1)
        interaction (interaction.rate * M.one_site_interaction_factor))
    let twos := (List.range M.sites.length).foldl (fun acc2 site_id_1 =>
      if site_id_0 ≠ site_id_1 then
        let site_1_state := state.getD site_id_1 0
        let site_1_species_id := (M.sites.getD site_id_1 default).species_id
        let distance := (M.distance_matrix.getD site_id_0 []).getD site_id_1 0
        if distance < M.interaction_radius_bound then
          let fwd := (M.two_site_available site_0_species_id
              site_1_species_id site_0_state site_1_state).map
            (fun interaction =>
              NPMC.Reaction.mk ((site_id_0 : Int), (site_id_1 : Int))
                interaction
                (M.distance_factor_function distance * interaction.rate
                  * M.two_site_interaction_factor))
          let bwd := if (site_id_1 : Int) ≠ other_site_id then
              (M.two_site_available site_1_species_id
                  site_0_species_id site_1_state site_0_state).map
                (fun interaction =>
                  NPMC.Reaction.mk ((site_id_1 : Int), (site_id_0 : Int))
                    interaction
                    (M.distance_factor_function distance * interaction.rate
                      * M.two_site_interaction_factor))
            else []
          acc2 ++ fwd ++ bwd
        else acc2
      else acc2) ([] : List NPMC.Reaction)
    acc ++ ones ++ twos) []

/-- Erase one reaction id from the per-site index entry of one site (the
    site is the C++ int site id, assumed nonnegative for live data). -/
def dep_erase (dep : Nat → Finset Nat) (s : Int) (id : Nat) :
    Nat → Finset Nat :=
  fun t => if t = s.toNat then (dep t).erase id else dep t

/-- Insert one reaction id into the per-site index entry of one site. -/
def dep_insert (dep : Nat → Finset Nat) (s : Int) (id : Nat) :
    Nat → Finset Nat :=
  fun t => if t = s.toNat then insert id (dep t) else dep t

/-- The body of the slot collection loop of update_reactions
    (src/NPMC/nano_particle.h:490-504): record one reaction id for removal
    and un-register it from the per-site index under all of its sites
    (site_id[0] always, site_id[1] when two-site). -/
def remove_one (cur : List NPMC.Reaction)
    (st : Finset Nat × (Nat → Finset Nat)) (reaction_id_to_remove : Nat) :
    Finset Nat × (Nat → Finset Nat) :=
  let reaction_to_remove := cur.getD reaction_id_to_remove default
  let dep1 := dep_erase st.2 (reaction_to_remove.sid 0) reaction_id_to_remove
  let dep2 := if reaction_to_remove.interaction.number_of_sites = 2 then
      dep_erase dep1 (reaction_to_remove.sid 1) reaction_id_to_remove
    else dep1
  (insert reaction_id_to_remove st.1, dep2)

/-- The slot collection loop of update_reactions
    (src/NPMC/nano_particle.h:483-506): for each affected site of the fired
    reaction, iterate over a snapshot of its index entry in ascending order
    (std::set iteration order) and process each listed reaction id. -/
def remove_phase (cur : List NPMC.Reaction) (dep : Nat → Finset Nat)
    (reaction : NPMC.Reaction) : Finset Nat × (Nat → Finset Nat) :=
  (List.range reaction.interaction.number_of_sites).foldl
    (fun st k =>
      ((st.2 ((reaction.sid k).toNat)).sort (· ≤ ·)).foldl
        (remove_one cur) st)
    (∅, dep)

/-- Register a reaction stored in a given slot under each of its sites. -/
def dep_insert_sites (dep : Nat → Finset Nat) (r : NPMC.Reaction)
    (slot : Nat) : Nat → Finset Nat :=
  (List.range r.interaction.number_of_sites).foldl
    (fun dp k => dep_insert dp (r.sid k) slot) dep

/-- The insertion loop of update_reactions
    (src/NPMC/nano_particle.h:509-531): each new reaction overwrites the
    lowest remaining removal slot (consuming it) while slots remain,
    and is appended at the tail otherwise; either way the reaction is
    registered in the per-site index under its slot.  Returns the new
    reaction vector, the new index and the removal slots not consumed. -/
def add_phase : List NPMC.Reaction → List Nat → List NPMC.Reaction →
    (Nat → Finset Nat) →
    List NPMC.Reaction × (Nat → Finset Nat) × List Nat
  | [], dests, cur, dep => (cur, dep, dests)
  | nr :: rest, d :: ds, cur, dep =>
      add_phase rest ds (cur.set d nr) (dep_insert_sites dep nr d)
  | nr :: rest, [], cur, dep =>
      add_phase rest [] (cur ++ [nr]) (dep_insert_sites dep nr cur.length)

/-- Re-registration of one moved reaction
    (src/NPMC/nano_particle.h:554-576): for each of its sites, erase the
    source slot from the index entry and insert the destination slot.  The
    C++ checks that the erase removed exactly one element and raises
    otherwise; under the per-site index invariant the entry is always
    present, so the interrupt branch is unreachable and the operation is
    modelled totally. -/
def move_fix (dep : Nat → Finset Nat) (reaction_to_move : NPMC.Reaction)
    (src dest : Nat) : Nat → Finset Nat :=
  (List.range reaction_to_move.interaction.number_of_sites).foldl
    (fun dp k =>
      dep_insert (dep_erase dp (reaction_to_move.sid k) src)
        (reaction_to_move.sid k) dest)
    dep

/-- The compaction loop of update_reactions
    (src/NPMC/nano_particle.h:540-581).  dests is the ascending list of the
    remaining removal slots, j the position of reactions_moved_itr in it
    (the C++ reactions_moved counter advances in lockstep with the
    iterator, so one index models both), and h1 = reaction_idx_to_move + 1
    so that the int variable reaching -1 is h1 = 0.  A source slot that is
    itself scheduled for removal is skipped; if the source index has fallen
    below the next destination the vector is already compact and the loop
    breaks; otherwise the source reaction is copied into the destination
    and re-registered. -/
def move_loop (n_reactions_to_move : Nat) (dests : List Nat) (j : Nat)
    (h1 : Nat) (cur : List NPMC.Reaction) (dep : Nat → Finset Nat) :
    List NPMC.Reaction × (Nat → Finset Nat) :=
  if n_reactions_to_move ≤ j then (cur, dep)
  else
    match h1 with
    | 0 => (cur, dep)
    | h + 1 =>
        if h ∈ dests then move_loop n_reactions_to_move dests j h cur dep
        else if h < dests.getD j 0 then (cur, dep)
        else
          let reaction_to_move := cur.getD h default
          move_loop n_reactions_to_move dests (j + 1) h
            (cur.set (dests.getD j 0) reaction_to_move)
            (move_fix dep reaction_to_move h (dests.getD j 0))

/-- NanoParticle::update_reactions (src/NPMC/nano_particle.h:407-584):
    generate the new reactions for the affected sites, collect and
    un-register the slots to remove, overwrite removal slots with new
    reactions (appending any excess), and if removal slots remain, compact
    the vector by moving tail reactions into them and truncate by the
    number of removed slots. -/
def NanoParticle.update_reactions (M : NanoParticle) (state : List Int)
    (current_site_reaction_dependency : Nat → Finset Nat)
    (current_reactions : List NPMC.Reaction) (reaction : NPMC.Reaction) :
    List NPMC.Reaction × (Nat → Finset Nat) :=
  let new_reactions := M.new_reactions state reaction
  let rem := remove_phase current_reactions
    current_site_reaction_dependency reaction
  let dests := rem.1.sort (· ≤ ·)
  let added := add_phase new_reactions dests current_reactions rem.2
  let remaining := added.2.2
  if remaining.isEmpty then (added.1, added.2.1)
  else
    let n_reactions_to_move := remaining.length
    let moved := move_loop n_reactions_to_move remaining 0
      added.1.length added.1 added.2.1
    (moved.1.take (moved.1.length - n_reactions_to_move), moved.2)

/-- Well-formedness of one live nanoparticle reaction over a model with
    num_sites sites: a one-site reaction grounds one valid site, a
    two-site reaction two distinct valid sites.  This is exactly the shape
    of every reaction the enumeration loops emit. -/
def NPMC.Reaction.wf (num_sites : Nat) (r : NPMC.Reaction) : Prop :=
  (r.interaction.number_of_sites = 1 ∧ 0 ≤ r.sid 0 ∧
    (r.sid 0).toNat < num_sites) ∨
  (r.interaction.number_of_sites = 2 ∧
    0 ≤ r.sid 0 ∧ (r.sid 0).toNat < num_sites ∧
    0 ≤ r.sid 1 ∧ (r.sid 1).toNat < num_sites ∧ r.sid 0 ≠ r.sid 1)

instance (num_sites : Nat) (r : NPMC.Reaction) :
    Decidable (r.wf num_sites) := by
  unfold NPMC.Reaction.wf
  infer_instance

/-- The set of sites (as indices) a live reaction grounds. -/
def NPMC.Reaction.site_set (r : NPMC.Reaction) : Finset Nat :=
  (Finset.range r.interaction.number_of_sites).image
    (fun k => (r.sid k).toNat)

/-- The per-site reaction index invariant at a quiescent point (data model
    section of the spec): every live slot holds a well-formed reaction
    registered under each of its sites, every index entry points back to a
    live slot that grounds that site, and the index mentions no site
    beyond the model. -/
def NPInv (num_sites : Nat) (cur : List NPMC.Reaction)
    (dep : Nat → Finset Nat) : Prop :=
  (∀ i, i < cur.length →
    (cur.getD i default).wf num_sites ∧
    ∀ k, k < (cur.getD i default).interaction.number_of_sites →
      i ∈ dep (((cur.getD i default).sid k).toNat)) ∧
  (∀ s i, i ∈ dep s →
    i < cur.length ∧ s ∈ (cur.getD i default).site_set)

/-- The set of slots update_reactions removes for a fired reaction: the
    union of the per-site index entries of its affected sites. -/
def removal_set (dep : Nat → Finset Nat) (fired : NPMC.Reaction) :
    Finset Nat :=
  (Finset.range fired.interaction.number_of_sites).biUnion
    (fun k => dep ((fired.sid k).toNat))

/-- Forward half of the per-site index invariant relative to an explicit
    set S of live slots: every live slot is in range and holds a
    well-formed reaction registered under each of its sites. -/
def live_fwd (num_sites : Nat) (cur : List NPMC.Reaction)
    (dep : Nat → Finset Nat) (S : Finset Nat) : Prop :=
  ∀ i ∈ S, i < cur.length ∧ (cur.getD i default).wf num_sites ∧
    ∀ k, k < (cur.getD i default).interaction.number_of_sites →
      i ∈ dep (((cur.getD i default).sid k).toNat)

/-- Backward half of the per-site index invariant relative to S: every
    index entry points to a live slot that grounds that site. -/
def live_bwd (cur : List NPMC.Reaction) (dep : Nat → Finset Nat)
    (S : Finset Nat) : Prop :=
  ∀ s i, i ∈ dep s → i ∈ S ∧ s ∈ (cur.getD i default).site_set

/-- Well-formedness of the lookup tensors: one-site buckets hold one-site
    interactions, two-site buckets hold two-site interactions — which is
    how the constructor fills them. -/
def NanoParticle.maps_wf (M : NanoParticle) : Prop :=
  (∀ sp st, ∀ i ∈ M.one_site_available sp st,
    i.number_of_sites = 1) ∧
  (∀ sp0 sp1 st0 st1, ∀ i ∈ M.two_site_available sp0 sp1 st0 st1,
    i.number_of_sites = 2)

/-- Shape of the one-site lookup tensor: num_species rows of num_states
    buckets each. -/
def one_map_dims (m : List (List (List Interaction)))
    (num_species num_states : Nat) : Prop :=
  m.length = num_species ∧
  ∀ sp, sp < num_species → (m.getD sp []).length = num_states

/-- Shape of the two-site lookup tensor:
    num_species x num_species x num_states x num_states buckets. -/
def two_map_dims (m : List (List (List (List (List Interaction)))))
    (num_species num_states : Nat) : Prop :=
  m.length = num_species ∧
  ∀ a, a < num_species →
    (m.getD a []).length = num_species ∧
    ∀ b, b < num_species →
      ((m.getD a []).getD b []).length = num_states ∧
      ∀ c, c < num_states →
        (((m.getD a []).getD b []).getD c []).length = num_states

/-- The single interaction row of scenario E: a two-site interaction on
    species 0, (0,0) to (1,1), rate 1. -/
def scenarioE_row : InteractionSql :=
  InteractionSql.mk 2 0 0 0 0 1 1 1

/-- The scenario E nanoparticle model: two sites of species 0 at positions
    (0,0,0) and (1,0,0) — whose Euclidean distance matrix, as
    compute_distance_matrix (src/NPMC/nano_particle.h:375-383) fills it, is
    [[0,1],[1,0]] — the single two-site interaction of scenarioE_row loaded
    through the constructor's tensor-building code, radius bound 10, linear
    distance factor, and a symbolic two_site_interaction_factor. -/
def scenarioE_model (fac : ℚ) : NanoParticle :=
  { degrees_of_freedom := [2],
    sites := [Site.mk 0 0 0 0, Site.mk 1 0 0 0],
    distance_matrix := [[0, 1], [1, 0]],
    one_site_interactions_map := one_site_interactions_map_of 1 [scenarioE_row],
    two_site_interactions_map := two_site_interactions_map_of 1 [scenarioE_row],
    initial_state := [0, 0],
    one_site_interaction_factor := 1,
    two_site_interaction_factor := fac,
    interaction_radius_bound := 10,
    distance_factor_function := linear_distance_factor 10 }

/-- A minimal one-site model with empty interaction tensors, used to
    instantiate the update_reactions invariant at a concrete input. -/
def trivial_model : NanoParticle :=
  { degrees_of_freedom := [1],
    sites := [Site.mk 0 0 0 0],
    distance_matrix := [[0]],
    one_site_interactions_map := [],
    two_site_interactions_map := [],
    initial_state := [0],
    one_site_interaction_factor := 1,
    two_site_interaction_factor := 1,
    interaction_radius_bound := 1,
    distance_factor_function := fun _ => 1 }

/-- A well-formed one-site reaction grounded at site 0 of trivial_model. -/
def trivial_fired : NPMC.Reaction :=
  { site_id := (0, -1),
    interaction := { interaction_id := 0, number_of_sites := 1,
                     species_id := (0, 0), left_state := (0, 0),
                     right_state := (0, 0), rate := 1 },
    rate := 1 }

/-- C2: for every state vector and every reaction of the network,
    compute_propensity returns factor_zero * rate with 0 reactants,
    x[s] * rate with 1 reactant, factor_two * x[s1] * x[s2] * rate with two
    distinct reactants, and factor_duplicate * factor_two * x[s] * (x[s]-1)
    * rate with two equal reactants; in the equal case the result is 0 when
    x[s] is 0 or 1, and in the 1-reactant case it is 0 when x[s] = 0. -/
theorem compute_propensity_spec (rn : ReactionNetwork) (x : List Int)
    (j : Nat) (hj : j < rn.reactions.length) :
    ((rn.reactions.getD j default).number_of_reactants = 0 →
      rn.compute_propensity x j
        = rn.factor_zero * (rn.reactions.getD j default).rate) ∧
    ((rn.reactions.getD j default).number_of_reactants = 1 →
      rn.compute_propensity x j
        = ((x.getD (rn.reactions.getD j default).reactants.1 0 : Int) : ℚ)
            * (rn.reactions.getD j default).rate) ∧
    ((rn.reactions.getD j default).number_of_reactants = 2 →
      (rn.reactions.getD j default).reactants.1
          ≠ (rn.reactions.getD j default).reactants.2 →
      rn.compute_propensity x j
        = rn.factor_two
            * ((x.getD (rn.reactions.getD j default).reactants.1 0 : Int) : ℚ)
            * ((x.getD (rn.reactions.getD j default).reactants.2 0 : Int) : ℚ)
            * (rn.reactions.getD j default).rate) ∧
    ((rn.reactions.getD j default).number_of_reactants = 2 →
      (rn.reactions.getD j default).reactants.1
          = (rn.reactions.getD j default).reactants.2 →
      rn.compute_propensity x j
        = rn.factor_duplicate * rn.factor_two
            * ((x.getD (rn.reactions.getD j default).reactants.1 0 : Int) : ℚ)
            * (((x.getD (rn.reactions.getD j default).reactants.1 0 : Int) : ℚ) - 1)
            * (rn.reactions.getD j default).rate) ∧
    ((rn.reactions.getD j default).number_of_reactants = 1 →
      x.getD (rn.reactions.getD j default).reactants.1 0 = 0 →
      rn.compute_propensity x j = 0) ∧
    ((rn.reactions.getD j default).number_of_reactants = 2 →
      (rn.reactions.getD j default).reactants.1
          = (rn.reactions.getD j default).reactants.2 →
      (x.getD (rn.reactions.getD j default).reactants.1 0 = 0 ∨
       x.getD (rn.reactions.getD j default).reactants.1 0 = 1) →
      rn.compute_propensity x j = 0) := by
  refine ⟨?_, ?_, ?_, ?_, ?_, ?_⟩
  · intro h0
    simp only [ReactionNetwork.compute_propensity]
    rw [if_pos h0]
  · intro h1
    simp only [ReactionNetwork.compute_propensity]
    rw [if_neg (by omega), if_pos h1]
  · intro h2 hne
    simp only [ReactionNetwork.compute_propensity]
    rw [if_neg (by omega), if_neg (by omega), if_neg hne]
  · intro h2 heq
    simp only [ReactionNetwork.compute_propensity]
    rw [if_neg (by omega), if_neg (by omega), if_pos heq]
  · intro h1 hx
    simp only [ReactionNetwork.compute_propensity]
    rw [if_neg (by omega), if_pos h1, hx]
    norm_num
  · intro h2 heq hx
    simp only [ReactionNetwork.compute_propensity]
    rw [if_neg (by omega), if_neg (by omega), if_pos heq]
    rcases hx with hx | hx <;> rw [hx] <;> norm_num

/-- Witness for compute_propensity_spec: the dimerization network of
    scenario B, reaction 0 is A + A -> B with rate 1/2, state [4, 0];
    its propensity evaluates to 1 * 1 * 4 * 3 * (1/2) = 6. -/
theorem compute_propensity_spec_witness :
    (0 : Nat) < (ReactionNetwork.mk
        [Reaction.mk 2 1 (0, 0) (1, 0) (1/2)] [4, 0] 1 1 1 0).reactions.length ∧
    (ReactionNetwork.mk [Reaction.mk 2 1 (0, 0) (1, 0) (1/2)] [4, 0] 1 1 1 0
        ).compute_propensity [4, 0] 0 = 6 := by
  refine ⟨by decide, ?_⟩
  have h := (compute_propensity_spec
      (ReactionNetwork.mk [Reaction.mk 2 1 (0, 0) (1, 0) (1/2)] [4, 0] 1 1 1 0)
      [4, 0] 0 (by decide)).2.2.2.1 (by decide) (by decide)
  rw [h]
  norm_num

/-- Auxiliary: writing at one list position leaves getD at any other
    position unchanged. -/
theorem getD_set_ne {α : Type} (l : List α) (a b : Nat) (v d : α)
    (h : a ≠ b) : (l.set a v).getD b d = l.getD b d := by
  simp [List.getD_eq_getElem?_getD, List.getElem?_set_ne h]

/-- Auxiliary: a fold of position-writes leaves getD unchanged at any
    position none of the writes touches. -/
theorem foldl_set_getD_untouched (f : Nat → Nat)
    (g : List Int → Nat → Int) (l : List Nat) (x : List Int) (a : Nat)
    (h : ∀ m ∈ l, f m ≠ a) :
    (l.foldl (fun s m => s.set (f m) (g s m)) x).getD a 0 = x.getD a 0 := by
  induction l generalizing x with
  | nil => simp
  | cons m ms ih =>
      simp only [List.foldl_cons]
      rw [ih _ (fun q hq => h q (List.mem_cons_of_mem _ hq))]
      exact getD_set_ne _ _ _ _ _ (h m (List.mem_cons_self _ _))

/-- Auxiliary: update_state does not change the count of a species that is
    neither a reactant nor a product of the fired reaction. -/
theorem update_state_preserves (rn : ReactionNetwork) (j : Nat)
    (x : List Int) (a : Nat)
    (hr : ∀ m < (rn.reactions.getD j default).number_of_reactants,
      (rn.reactions.getD j default).reactant m ≠ a)
    (hp : ∀ n < (rn.reactions.getD j default).number_of_products,
      (rn.reactions.getD j default).product n ≠ a) :
    (rn.update_state x j).getD a 0 = x.getD a 0 := by
  unfold ReactionNetwork.update_state
  rw [foldl_set_getD_untouched _ _ _ _ _
        (fun m hm => hp m (List.mem_range.mp hm)),
      foldl_set_getD_untouched _ _ _ _ _
        (fun m hm => hr m (List.mem_range.mp hm))]

/-- Auxiliary: one get_dependency_node call always increments the counter. -/
theorem get_dependency_node_step_occ (rn : ReactionNetwork) (j : Nat)
    (node : DependentsNode) :
    (rn.get_dependency_node_step j node).number_of_occurrences
      = node.number_of_occurrences + 1 := by
  unfold ReactionNetwork.get_dependency_node_step
  split <;> rfl

/-- Auxiliary: one get_dependency_node call stores the dependency list iff
    the list was absent and the pre-call counter reached the threshold. -/
theorem get_dependency_node_step_deps (rn : ReactionNetwork) (j : Nat)
    (node : DependentsNode) :
    (rn.get_dependency_node_step j node).dependents
      = if node.dependents = none ∧
            rn.dependency_threshold ≤ node.number_of_occurrences then
          some (rn.compute_dependency_node j)
        else node.dependents := by
  unfold ReactionNetwork.get_dependency_node_step
  split <;> rfl

/-- C4: iterating get_dependency_node on a fresh node, the counter equals
    the number of calls made, and the dependent list is present exactly
    when at least dependency_threshold + 1 calls have been made, in which
    case it holds compute_dependency_node's result ever after (computed
    once, never invalidated). -/
theorem get_dependency_node_laziness (rn : ReactionNetwork) (j : Nat)
    (hth : 0 ≤ rn.dependency_threshold) (n : Nat) :
    ((rn.get_dependency_node_step j)^[n] DependentsNode.init
        ).number_of_occurrences = (n : Int) ∧
    ((rn.get_dependency_node_step j)^[n] DependentsNode.init).dependents
      = (if rn.dependency_threshold + 1 ≤ (n : Int) then
           some (rn.compute_dependency_node j)
         else none) := by
  induction n with
  | zero =>
      constructor
      · rfl
      · rw [if_neg (by omega)]
        rfl
  | succ n ih =>
      obtain ⟨ih1, ih2⟩ := ih
      rw [Function.iterate_succ_apply']
      rw [get_dependency_node_step_occ, get_dependency_node_step_deps,
          ih1, ih2]
      by_cases hpresent : rn.dependency_threshold + 1 ≤ (n : Int)
      · rw [if_pos hpresent, if_neg (by simp), if_pos (by push_cast; omega)]
        exact ⟨by push_cast; ring, rfl⟩
      · rw [if_neg hpresent]
        by_cases hready : rn.dependency_threshold ≤ (n : Int)
        · rw [if_pos ⟨rfl, hready⟩, if_pos (by push_cast; omega)]
          exact ⟨by push_cast; ring, rfl⟩
        · rw [if_neg (by simpa using hready), if_neg (by push_cast; omega)]
          exact ⟨by push_cast; ring, rfl⟩

/-- Witness for get_dependency_node_laziness: with threshold 1, after 2
    calls the counter is 2 and the list is present. -/
theorem get_dependency_node_laziness_witness :
    (0 : Int) ≤ (ReactionNetwork.mk [Reaction.mk 1 1 (0, 0) (0, 0) 1]
        [1] 1 1 1 1).dependency_threshold ∧
    (((ReactionNetwork.mk [Reaction.mk 1 1 (0, 0) (0, 0) 1] [1] 1 1 1 1
        ).get_dependency_node_step 0)^[2] DependentsNode.init
        ).number_of_occurrences = 2 ∧
    (((ReactionNetwork.mk [Reaction.mk 1 1 (0, 0) (0, 0) 1] [1] 1 1 1 1
        ).get_dependency_node_step 0)^[2] DependentsNode.init).dependents
      = some ((ReactionNetwork.mk [Reaction.mk 1 1 (0, 0) (0, 0) 1]
          [1] 1 1 1 1).compute_dependency_node 0) := by
  have h := get_dependency_node_laziness
    (ReactionNetwork.mk [Reaction.mk 1 1 (0, 0) (0, 0) 1] [1] 1 1 1 1)
    0 (by decide) 2
  refine ⟨by decide, h.1, ?_⟩
  rw [h.2, if_pos (by norm_num)]

/-- C5: compute_dependency_node j lists, in strictly increasing order and
    exactly once each, precisely the reaction indices whose reactant slots
    share a species with the reactants or products of reaction j; and every
    reaction outside the list has the same propensity in x and in
    update_state x j, for every state x, so the stored list is a superset
    of the reactions whose propensity can change when j fires. -/
theorem compute_dependency_node_spec (rn : ReactionNetwork) (hwf : rn.wf)
    (j : Nat) :
    List.Pairwise (· < ·) (rn.compute_dependency_node j) ∧
    (∀ i, i ∈ rn.compute_dependency_node j ↔
      i < rn.reactions.length ∧
      ∃ l, l < (rn.reactions.getD i default).number_of_reactants ∧
        ((∃ m, m < (rn.reactions.getD j default).number_of_reactants ∧
            (rn.reactions.getD i default).reactant l
              = (rn.reactions.getD j default).reactant m) ∨
         (∃ n, n < (rn.reactions.getD j default).number_of_products ∧
            (rn.reactions.getD i default).reactant l
              = (rn.reactions.getD j default).product n))) ∧
    (∀ i, i < rn.reactions.length → i ∉ rn.compute_dependency_node j →
      ∀ x, rn.compute_propensity x i
            = rn.compute_propensity (rn.update_state x j) i) := by
  refine ⟨?_, ?_, ?_⟩
  · exact List.Pairwise.sublist (List.filter_sublist _)
      (List.pairwise_lt_range _)
  · intro i
    simp [ReactionNetwork.compute_dependency_node, List.mem_filter,
      List.mem_range, ReactionNetwork.shares_species]
  · intro i hi hnot x
    have hns : ¬ ∃ l, l < (rn.reactions.getD i default).number_of_reactants ∧
        ((∃ m, m < (rn.reactions.getD j default).number_of_reactants ∧
            (rn.reactions.getD i default).reactant l
              = (rn.reactions.getD j default).reactant m) ∨
         (∃ n, n < (rn.reactions.getD j default).number_of_products ∧
            (rn.reactions.getD i default).reactant l
              = (rn.reactions.getD j default).product n)) := by
      intro hcon
      apply hnot
      simp only [ReactionNetwork.compute_dependency_node, List.mem_filter,
        List.mem_range, ReactionNetwork.shares_species]
      exact ⟨hi, by simpa using hcon⟩
    push_neg at hns
    have hpres : ∀ l, l < (rn.reactions.getD i default).number_of_reactants →
        (rn.update_state x j).getD
            ((rn.reactions.getD i default).reactant l) 0
          = x.getD ((rn.reactions.getD i default).reactant l) 0 := by
      intro l hl
      apply update_state_preserves
      · intro m hm
        exact Ne.symm ((hns l hl).1 m hm)
      · intro n hn
        exact Ne.symm ((hns l hl).2 n hn)
    have h1 : 0 < (rn.reactions.getD i default).number_of_reactants →
        (rn.update_state x j).getD
            (rn.reactions.getD i default).reactants.1 0
          = x.getD (rn.reactions.getD i default).reactants.1 0 := by
      intro h
      simpa [Reaction.reactant] using hpres 0 h
    have h2 : 1 < (rn.reactions.getD i default).number_of_reactants →
        (rn.update_state x j).getD
            (rn.reactions.getD i default).reactants.2 0
          = x.getD (rn.reactions.getD i default).reactants.2 0 := by
      intro h
      simpa [Reaction.reactant] using hpres 1 h
    simp only [ReactionNetwork.compute_propensity]
    split_ifs with ha hb hc
    · rfl
    · rw [h1 (by omega)]
    · rw [h1 (by omega)]
    · rw [h1 (by omega), h2 (by omega)]

/-- Witness for compute_dependency_node_spec: the dimerization network of
    scenario B is well formed and its dependency list for reaction 0 is
    strictly sorted. -/
theorem compute_dependency_node_spec_witness :
    (ReactionNetwork.mk
      [Reaction.mk 2 1 (0, 0) (1, 0) (1/2),
       Reaction.mk 1 2 (1, 1) (0, 0) (1/10)] [4, 0] 1 1 1 0).wf ∧
    List.Pairwise (· < ·)
      ((ReactionNetwork.mk
        [Reaction.mk 2 1 (0, 0) (1, 0) (1/2),
         Reaction.mk 1 2 (1, 1) (0, 0) (1/10)] [4, 0] 1 1 1 0
        ).compute_dependency_node 0) := by
  refine ⟨by decide, ?_⟩
  exact (compute_dependency_node_spec
    (ReactionNetwork.mk
      [Reaction.mk 2 1 (0, 0) (1, 0) (1/2),
       Reaction.mk 1 2 (1, 1) (0, 0) (1/10)] [4, 0] 1 1 1 0)
    (by decide) 0).1

/-- Auxiliary: folding callback emissions is the same as mapping over the
    emitted list. -/
theorem foldl_append_map {α β : Type} (f : α → β) (l : List α)
    (acc : List β) :
    l.foldl (fun a i => a ++ [f i]) acc = acc ++ l.map f := by
  induction l generalizing acc with
  | nil => simp
  | cons y ys ih => simp [ih]

/-- C6: update_propensities emits exactly one Update with the freshly
    computed propensity for each reaction in the dependent list when the
    list is present after the internal get_dependency_node call, and one
    for every reaction of the network when it is absent. -/
theorem update_propensities_spec (rn : ReactionNetwork)
    (g : List DependentsNode) (x : List Int) (next : Nat) :
    (∀ deps, (rn.get_dependency_node g next).2 = some deps →
      (rn.update_propensities g x next).2
        = deps.map (fun i =>
            { index := i, propensity := rn.compute_propensity x i })) ∧
    ((rn.get_dependency_node g next).2 = none →
      (rn.update_propensities g x next).2
        = (List.range rn.reactions.length).map (fun i =>
            { index := i, propensity := rn.compute_propensity x i })) := by
  constructor
  · intro deps h
    simp only [ReactionNetwork.update_propensities, h]
    simpa using foldl_append_map
      (fun i => ({ index := i,
                   propensity := rn.compute_propensity x i } : Update))
      deps []
  · intro h
    simp only [ReactionNetwork.update_propensities, h]
    simpa using foldl_append_map
      (fun i => ({ index := i,
                   propensity := rn.compute_propensity x i } : Update))
      (List.range rn.reactions.length) []

/-- Witness for update_propensities_spec: one reaction, threshold 0, fresh
    graph; the first call computes the node, finds the list present, and
    emits exactly the one listed update with its recomputed propensity. -/
theorem update_propensities_spec_witness :
    ((ReactionNetwork.mk [Reaction.mk 1 1 (0, 0) (0, 0) 2] [3] 1 1 1 0
        ).get_dependency_node [DependentsNode.init] 0).2 = some [0] ∧
    ((ReactionNetwork.mk [Reaction.mk 1 1 (0, 0) (0, 0) 2] [3] 1 1 1 0
        ).update_propensities [DependentsNode.init] [3] 0).2
      = [{ index := 0, propensity := 6 }] := by
  have h := (update_propensities_spec
    (ReactionNetwork.mk [Reaction.mk 1 1 (0, 0) (0, 0) 2] [3] 1 1 1 0)
    [DependentsNode.init] [3] 0).1 [0] (by decide)
  refine ⟨by decide, ?_⟩
  rw [h]
  simp [ReactionNetwork.compute_propensity]
  norm_num

/-- C8: execute_step stops and leaves state, time, step and history
    unchanged when the solver yields no event; otherwise it adds dt to
    time, records a HistoryElement at index step, increments step, applies
    the model state update followed by the emitted propensity updates, and
    continues exactly when the new time is below time_cutoff — so with
    time_cutoff = 0 and a positive dt it fires once, records one history
    element, and stops. -/
theorem execute_step_spec {σ : Type} (S : SolverOps σ) (M : ModelOps)
    (sim : Simulation σ) :
    (∀ s1, S.event sim.solver = (none, s1) →
      Simulation.execute_step S M sim = (false, { sim with solver := s1 })) ∧
    (∀ ev s1, S.event sim.solver = (some ev, s1) →
      Simulation.execute_step S M sim
        = (decide (sim.time + ev.dt < sim.time_cutoff),
           { state := M.update_state sim.state ev.index,
             time := sim.time + ev.dt,
             time_cutoff := sim.time_cutoff,
             step := sim.step + 1,
             solver := (M.update_propensities
                 (M.update_state sim.state ev.index) ev.index).foldl
               S.update s1,
             history := sim.history.set sim.step
               { reaction_id := ev.index, time := sim.time + ev.dt } })) ∧
    (∀ ev s1, S.event sim.solver = (some ev, s1) → sim.time_cutoff = 0 →
      sim.time = 0 → 0 < ev.dt →
      (Simulation.execute_step S M sim).1 = false ∧
      (Simulation.execute_step S M sim).2.step = sim.step + 1 ∧
      (Simulation.execute_step S M sim).2.history
        = sim.history.set sim.step
            { reaction_id := ev.index, time := sim.time + ev.dt }) := by
  refine ⟨?_, ?_, ?_⟩
  · intro s1 h
    unfold Simulation.execute_step
    rw [h]
  · intro ev s1 h
    unfold Simulation.execute_step
    rw [h]
  · intro ev s1 h hc ht hdt
    unfold Simulation.execute_step
    rw [h]
    refine ⟨?_, rfl, rfl⟩
    simp only [decide_eq_false_iff_not, not_lt]
    rw [hc, ht]
    linarith

/-- Witness for execute_step_spec: a solver that always fires event
    (index 0, dt 1) on a driver with time_cutoff 0 fires once and stops. -/
theorem execute_step_spec_witness :
    (SolverOps.mk (fun s => (some (Event.mk 0 1), s))
        (fun s _ => s) : SolverOps Unit).event
      (Simulation.construct [5] 0 3 ()).solver
        = (some (Event.mk 0 1), ()) ∧
    (0 : ℚ) < 1 ∧
    (Simulation.execute_step
      (SolverOps.mk (fun s => (some (Event.mk 0 1), s)) (fun s _ => s))
      (ModelOps.mk (fun st _ => st) (fun _ _ => []))
      (Simulation.construct [5] 0 3 ())).1 = false ∧
    (Simulation.execute_step
      (SolverOps.mk (fun s => (some (Event.mk 0 1), s)) (fun s _ => s))
      (ModelOps.mk (fun st _ => st) (fun _ _ => []))
      (Simulation.construct [5] 0 3 ())).2.step
        = (Simulation.construct [5] 0 3 () : Simulation Unit).step + 1 := by
  have h := (execute_step_spec
    (SolverOps.mk (fun s => (some (Event.mk 0 1), s)) (fun s _ => s))
    (ModelOps.mk (fun st _ => st) (fun _ _ => []))
    (Simulation.construct [5] 0 3 ())).2.2 (Event.mk 0 1) () rfl rfl rfl
    (by norm_num)
  exact ⟨rfl, by norm_num, h.1, h.2.1⟩

/-- Auxiliary: an index written by one execute_step call is the pre-call
    step counter. -/
theorem step_write_eq {σ : Type} (S : SolverOps σ) (sim : Simulation σ)
    (i : Nat) (hi : i ∈ Simulation.step_write S sim) : i = sim.step := by
  unfold Simulation.step_write at hi
  rcases hev : (S.event sim.solver).1 with - | ev <;> rw [hev] at hi
  · simp at hi
  · simpa using hi

/-- Auxiliary: when execute_step continues, the step counter has advanced
    by exactly one. -/
theorem execute_step_true_step {σ : Type} (S : SolverOps σ) (M : ModelOps)
    (sim : Simulation σ) (s1 : Simulation σ)
    (h : Simulation.execute_step S M sim = (true, s1)) :
    s1.step = sim.step + 1 := by
  unfold Simulation.execute_step at h
  rcases hev : S.event sim.solver with ⟨e, s2⟩
  rw [hev] at h
  cases e with
  | none => simp at h
  | some ev =>
      simp only [Prod.mk.injEq] at h
      rw [← h.2]

/-- Auxiliary: along execute_steps, every history write index stays at or
    below the step cutoff whenever the run starts at a step at or below
    the cutoff. -/
theorem execute_steps_writes_le {σ : Type} (S : SolverOps σ) (M : ModelOps)
    (c : Nat) : ∀ n (sim : Simulation σ), c + 1 - sim.step = n →
    sim.step ≤ c →
    ∀ i ∈ (Simulation.execute_steps S M c sim).2, i ≤ c := by
  intro n
  induction n using Nat.strong_induction_on with
  | _ n ih =>
    intro sim hn hle i hi
    rw [Simulation.execute_steps.eq_def] at hi
    split at hi
    · exact (step_write_eq S sim i hi) ▸ hle
    · rename_i s1 heq
      split at hi
      · exact (step_write_eq S sim i hi) ▸ hle
      · rename_i hgt
        rcases List.mem_append.mp hi with hi1 | hi2
        · exact (step_write_eq S sim i hi1) ▸ hle
        · have hstep := execute_step_true_step S M sim s1 heq
          have hle1 : s1.step ≤ c := by omega
          exact ih (c + 1 - s1.step) (by omega) s1 rfl hle1 i hi2

/-- C9: starting from a freshly constructed simulation (step 0, history of
    length step_cutoff + 1), every history index written by
    execute_steps(step_cutoff) is at most step_cutoff, hence strictly
    inside the history buffer with its one slack slot. -/
theorem execute_steps_history_in_bounds {σ : Type} (S : SolverOps σ)
    (M : ModelOps) (init : List Int) (tc : ℚ) (step_cutoff : Nat) (s0 : σ)
    (i : Nat)
    (hi : i ∈ (Simulation.execute_steps S M step_cutoff
        (Simulation.construct init tc step_cutoff s0)).2) :
    i ≤ step_cutoff ∧
    i < (Simulation.construct init tc step_cutoff s0
        : Simulation σ).history.length := by
  have h := execute_steps_writes_le S M step_cutoff
    (step_cutoff + 1 - (Simulation.construct init tc step_cutoff s0
        : Simulation σ).step)
    (Simulation.construct init tc step_cutoff s0) rfl
    (by simp [Simulation.construct]) i hi
  refine ⟨h, ?_⟩
  simp only [Simulation.construct, List.length_replicate]
  omega

/-- Witness for execute_steps_history_in_bounds: with an always-firing
    solver and time_cutoff 0, the run writes exactly history index 0, which
    is at most the cutoff 0 and inside the buffer of length 1. -/
theorem execute_steps_history_in_bounds_witness :
    (0 ∈ (Simulation.execute_steps
      (SolverOps.mk (fun s => (some (Event.mk 0 1), s))
        (fun s _ => s) : SolverOps Unit)
      (ModelOps.mk (fun st _ => st) (fun _ _ => []))
      0 (Simulation.construct [1] 0 0 ())).2) ∧
    (0 : Nat) ≤ 0 ∧
    0 < (Simulation.construct [1] 0 0 () : Simulation Unit).history.length := by
  have hmem : 0 ∈ (Simulation.execute_steps
      (SolverOps.mk (fun s => (some (Event.mk 0 1), s))
        (fun s _ => s) : SolverOps Unit)
      (ModelOps.mk (fun st _ => st) (fun _ _ => []))
      0 (Simulation.construct [1] 0 0 ())).2 := by
    rw [Simulation.execute_steps.eq_def]
    have hstep : Simulation.execute_step
        (SolverOps.mk (fun s => (some (Event.mk 0 1), s))
          (fun s _ => s) : SolverOps Unit)
        (ModelOps.mk (fun st _ => st) (fun _ _ => []))
        (Simulation.construct [1] 0 0 ())
        = (false,
           { state := [1], time := 1, time_cutoff := 0, step := 1,
             solver := (),
             history := [{ reaction_id := 0, time := 1 }] }) := by
      unfold Simulation.execute_step Simulation.construct
      norm_num
    rw [hstep]
    simp [Simulation.step_write, Simulation.construct]
  have h := execute_steps_history_in_bounds
    (SolverOps.mk (fun s => (some (Event.mk 0 1), s))
      (fun s _ => s) : SolverOps Unit)
    (ModelOps.mk (fun st _ => st) (fun _ _ => []))
    [1] 0 0 () 0 hmem
  exact ⟨hmem, h.1, h.2⟩

/-- C7 counterexample: a two-site reaction whose first site precondition
    holds and whose second fails.  update_state raises after having
    already mutated the first site, so the state at the interrupt is
    [50, 7], not the claimed unmutated [5, 7]. -/
theorem np_update_state_counterexample :
    NanoParticle.update_state [5, 7]
      (NPMC.Reaction.mk (0, 1)
        (Interaction.mk 0 2 (0, 0) (5, 99) (50, 60) 1) 1)
      = Except.error [50, 7] ∧
    ([50, 7] : List Int) ≠ [5, 7] := by
  constructor
  · rfl
  · decide

/-- C7 (amended): update_state checks and writes per site in order: for a
    one-site reaction it checks site 0 and, on success, writes it; for a
    two-site reaction with distinct nonnegative site ids it checks site 0,
    writes site 0, checks site 1 (whose stored value is still the original
    one), writes site 1.  On the first failing check it raises with all
    earlier sites already mutated: an unmutated state for a site-0 failure,
    but a state with site 0 already overwritten for a site-1 failure.
    When every check passes the final state has both writes applied and
    every other position unchanged. -/
theorem np_update_state_spec (state : List Int) (r : NPMC.Reaction)
    (h0nn : 0 ≤ r.sid 0) (h1nn : 0 ≤ r.sid 1) (hne : r.sid 0 ≠ r.sid 1) :
    (r.interaction.number_of_sites = 1 →
      (state.getD (r.sid 0).toNat 0 ≠ r.interaction.left 0 →
        NanoParticle.update_state state r = Except.error state) ∧
      (state.getD (r.sid 0).toNat 0 = r.interaction.left 0 →
        NanoParticle.update_state state r
          = Except.ok (state.set (r.sid 0).toNat (r.interaction.right 0)) ∧
        ∀ t, t ≠ (r.sid 0).toNat →
          (state.set (r.sid 0).toNat (r.interaction.right 0)).getD t 0
            = state.getD t 0)) ∧
    (r.interaction.number_of_sites = 2 →
      (state.getD (r.sid 0).toNat 0 ≠ r.interaction.left 0 →
        NanoParticle.update_state state r = Except.error state) ∧
      (state.getD (r.sid 0).toNat 0 = r.interaction.left 0 →
        state.getD (r.sid 1).toNat 0 ≠ r.interaction.left 1 →
        NanoParticle.update_state state r
          = Except.error
              (state.set (r.sid 0).toNat (r.interaction.right 0))) ∧
      (state.getD (r.sid 0).toNat 0 = r.interaction.left 0 →
        state.getD (r.sid 1).toNat 0 = r.interaction.left 1 →
        NanoParticle.update_state state r
          = Except.ok ((state.set (r.sid 0).toNat
              (r.interaction.right 0)).set (r.sid 1).toNat
              (r.interaction.right 1)) ∧
        ∀ t, t ≠ (r.sid 0).toNat → t ≠ (r.sid 1).toNat →
          ((state.set (r.sid 0).toNat (r.interaction.right 0)).set
              (r.sid 1).toNat (r.interaction.right 1)).getD t 0
            = state.getD t 0)) := by
  have htne : (r.sid 0).toNat ≠ (r.sid 1).toNat := by
    intro hcon
    exact hne (by omega)
  have hst1 : (state.set (r.sid 0).toNat (r.interaction.right 0)).getD
      (r.sid 1).toNat 0 = state.getD (r.sid 1).toNat 0 :=
    getD_set_ne _ _ _ _ _ htne
  have hr1 : List.range 1 = [0] := rfl
  have hr2 : List.range 2 = [0, 1] := rfl
  constructor
  · intro hn1
    unfold NanoParticle.update_state
    rw [hn1, hr1]
    constructor
    · intro hfail
      unfold NanoParticle.update_state_go
      rw [if_pos hfail]
    · intro hok
      constructor
      · unfold NanoParticle.update_state_go
        rw [if_neg (not_not_intro hok)]
        rfl
      · intro t ht
        exact getD_set_ne _ _ _ _ _ (Ne.symm ht)
  · intro hn2
    unfold NanoParticle.update_state
    rw [hn2, hr2]
    refine ⟨?_, ?_, ?_⟩
    · intro hfail
      unfold NanoParticle.update_state_go
      rw [if_pos hfail]
    · intro hok0 hfail1
      rw [← hst1] at hfail1
      unfold NanoParticle.update_state_go
      rw [if_neg (not_not_intro hok0)]
      unfold NanoParticle.update_state_go
      rw [if_pos hfail1]
    · intro hok0 hok1
      rw [← hst1] at hok1
      constructor
      · unfold NanoParticle.update_state_go
        rw [if_neg (not_not_intro hok0)]
        unfold NanoParticle.update_state_go
        rw [if_neg (not_not_intro hok1)]
        rfl
      · intro t ht0 ht1
        rw [getD_set_ne _ _ _ _ _ (Ne.symm ht1),
            getD_set_ne _ _ _ _ _ (Ne.symm ht0)]

/-- Witness for np_update_state_spec: a two-site reaction whose two checks
    both pass updates both sites in place. -/
theorem np_update_state_spec_witness :
    (0 : Int) ≤ 0 ∧ (0 : Int) ≤ 1 ∧ (0 : Int) ≠ 1 ∧
    (NPMC.Reaction.mk (0, 1)
        (Interaction.mk 0 2 (0, 0) (5, 7) (50, 60) 1) 1
      ).interaction.number_of_sites = 2 ∧
    NanoParticle.update_state [5, 7]
      (NPMC.Reaction.mk (0, 1)
        (Interaction.mk 0 2 (0, 0) (5, 7) (50, 60) 1) 1)
      = Except.ok [50, 60] := by
  have h := ((np_update_state_spec [5, 7]
    (NPMC.Reaction.mk (0, 1)
      (Interaction.mk 0 2 (0, 0) (5, 7) (50, 60) 1) 1)
    (by decide) (by decide) (by decide)).2 (by rfl)).2.2 (by rfl) (by rfl)
  exact ⟨by decide, by decide, by decide, rfl, h.1⟩

/-- C3: the initial reaction enumeration of the constructor on the
    scenario E model.  The outer loop over site_id_0 visits the unordered
    pair twice and each visit pushes both donor orientations
    (src/NPMC/nano_particle.h:334-368 starts the inner loop at site 0, not
    site_id_0 + 1), so the code produces 4 reactions — each ordered pair
    twice, each with effective rate (1 - 1/10) * 1 * fac — instead of the
    2 ordered reactions the specification describes.  update_reactions
    documents the dedup intent for exactly this situation
    (src/NPMC/nano_particle.h:462-464), which the constructor violates. -/
theorem scenarioE_initial_reactions (fac : ℚ) :
    (scenarioE_model fac).initial_reactions [0, 0]
      = [NPMC.Reaction.mk (0, 1)
           (Interaction.mk 0 2 (0, 0) (0, 0) (1, 1) 1) (9/10 * fac),
         NPMC.Reaction.mk (1, 0)
           (Interaction.mk 0 2 (0, 0) (0, 0) (1, 1) 1) (9/10 * fac),
         NPMC.Reaction.mk (1, 0)
           (Interaction.mk 0 2 (0, 0) (0, 0) (1, 1) 1) (9/10 * fac),
         NPMC.Reaction.mk (0, 1)
           (Interaction.mk 0 2 (0, 0) (0, 0) (1, 1) 1) (9/10 * fac)] ∧
    ((scenarioE_model fac).initial_reactions [0, 0]).length ≠ 2 := by
  have hcode : (scenarioE_model fac).initial_reactions [0, 0]
      = [NPMC.Reaction.mk (0, 1)
           (Interaction.mk 0 2 (0, 0) (0, 0) (1, 1) 1)
           (linear_distance_factor 10 1 * 1 * fac),
         NPMC.Reaction.mk (1, 0)
           (Interaction.mk 0 2 (0, 0) (0, 0) (1, 1) 1)
           (linear_distance_factor 10 1 * 1 * fac),
         NPMC.Reaction.mk (1, 0)
           (Interaction.mk 0 2 (0, 0) (0, 0) (1, 1) 1)
           (linear_distance_factor 10 1 * 1 * fac),
         NPMC.Reaction.mk (0, 1)
           (Interaction.mk 0 2 (0, 0) (0, 0) (1, 1) 1)
           (linear_distance_factor 10 1 * 1 * fac)] := rfl
  have hrate : linear_distance_factor 10 1 * 1 * fac = 9/10 * fac := by
    unfold linear_distance_factor
    norm_num
  rw [hrate] at hcode
  refine ⟨hcode, ?_⟩
  rw [hcode]
  simp

/-- Auxiliary: getD inside a replicate. -/
theorem getD_replicate_lt {α : Type} (n : Nat) (x d : α) (i : Nat)
    (h : i < n) : (List.replicate n x).getD i d = x := by
  simp [List.getD_eq_getElem?_getD, List.getElem?_replicate, h]

/-- Auxiliary: getD at a written in-bounds position. -/
theorem getD_set_self {α : Type} (l : List α) (a : Nat) (v d : α)
    (h : a < l.length) : (l.set a v).getD a d = v := by
  simp [List.getD_eq_getElem?_getD, List.getElem?_set, h]

/-- Auxiliary: pushing one interaction preserves the one-site tensor
    shape. -/
theorem push_one_site_dims (nsp nst : Nat)
    (m : List (List (List Interaction))) (i : Interaction)
    (h : one_map_dims m nsp nst) :
    one_map_dims (push_one_site m i) nsp nst := by
  obtain ⟨h1, h2⟩ := h
  unfold push_one_site one_map_dims
  refine ⟨by simp [h1], ?_⟩
  intro sp hsp
  by_cases hsa : sp = i.species_id.1
  · rw [hsa] at hsp ⊢
    have hlt : i.species_id.1 < m.length := by omega
    rw [getD_set_self _ _ _ _ hlt]
    rw [List.length_set]
    exact h2 _ hsp
  · rw [getD_set_ne _ _ _ _ _ (Ne.symm hsa)]
    exact h2 sp hsp

/-- Auxiliary: the freshly resized one-site tensor has the right shape. -/
theorem empty_one_site_map_dims (nsp nst : Nat) :
    one_map_dims (empty_one_site_map nsp nst) nsp nst := by
  unfold empty_one_site_map one_map_dims
  refine ⟨by simp, ?_⟩
  intro sp hsp
  rw [getD_replicate_lt _ _ _ _ hsp]
  simp

/-- Auxiliary: the one-site tensor keeps its shape over all pushes. -/
theorem fold_push_one_site_dims (nsp nst : Nat) (l : List Interaction) :
    ∀ m, one_map_dims m nsp nst →
      one_map_dims (l.foldl push_one_site m) nsp nst := by
  induction l with
  | nil => intro m h; exact h
  | cons x xs ih =>
      intro m h
      exact ih _ (push_one_site_dims _ _ _ _ h)

/-- Auxiliary: pushing one interaction preserves the two-site tensor
    shape. -/
theorem push_two_site_dims (nsp nst : Nat)
    (m : List (List (List (List (List Interaction))))) (i : Interaction)
    (h : two_map_dims m nsp nst) :
    two_map_dims (push_two_site m i) nsp nst := by
  obtain ⟨h1, h2⟩ := h
  unfold push_two_site two_map_dims
  refine ⟨by simp [h1], ?_⟩
  intro a ha
  by_cases haa : a = i.species_id.1
  · rw [haa] at ha ⊢
    have hlt : i.species_id.1 < m.length := by omega
    rw [getD_set_self _ _ _ _ hlt]
    obtain ⟨g1, g2⟩ := h2 _ ha
    refine ⟨by rw [List.length_set]; exact g1, ?_⟩
    intro b hb
    by_cases hbb : b = i.species_id.2
    · rw [hbb] at hb ⊢
      have hltb : i.species_id.2 < (m.getD i.species_id.1 []).length := by
        omega
      rw [getD_set_self _ _ _ _ hltb]
      obtain ⟨f1, f2⟩ := g2 _ hb
      refine ⟨by rw [List.length_set]; exact f1, ?_⟩
      intro c hc
      by_cases hcc : c = i.left_state.1.toNat
      · rw [hcc] at hc ⊢
        have hltc : i.left_state.1.toNat
            < ((m.getD i.species_id.1 []).getD i.species_id.2 []).length := by
          omega
        rw [getD_set_self _ _ _ _ hltc]
        rw [List.length_set]
        exact f2 _ hc
      · rw [getD_set_ne _ _ _ _ _ (Ne.symm hcc)]
        exact f2 c hc
    · rw [getD_set_ne _ _ _ _ _ (Ne.symm hbb)]
      exact g2 b hb
  · rw [getD_set_ne _ _ _ _ _ (Ne.symm haa)]
    exact h2 a ha

/-- Auxiliary: the freshly resized two-site tensor has the right shape. -/
theorem empty_two_site_map_dims (nsp nst : Nat) :
    two_map_dims (empty_two_site_map nsp nst) nsp nst := by
  unfold empty_two_site_map two_map_dims
  refine ⟨by simp, ?_⟩
  intro a ha
  rw [getD_replicate_lt _ _ _ _ ha]
  refine ⟨by simp, ?_⟩
  intro b hb
  rw [getD_replicate_lt _ _ _ _ hb]
  refine ⟨by simp, ?_⟩
  intro c hc
  rw [getD_replicate_lt _ _ _ _ hc]
  simp

/-- Auxiliary: the two-site tensor keeps its shape over all pushes. -/
theorem fold_push_two_site_dims (nsp nst : Nat) (l : List Interaction) :
    ∀ m, two_map_dims m nsp nst →
      two_map_dims (l.foldl push_two_site m) nsp nst := by
  induction l with
  | nil => intro m h; exact h
  | cons x xs ih =>
      intro m h
      exact ih _ (push_two_site_dims _ _ _ _ h)

/-- Auxiliary: the running num_states accumulator never drops below its
    start value. -/
theorem max_left_state_acc_le (rows : List InteractionSql) :
    ∀ acc : Int, acc ≤ rows.foldl
      (fun ns row => if ns < row.left_state_1 then row.left_state_1 else ns)
      acc := by
  induction rows with
  | nil => intro acc; simp
  | cons r rs ih =>
      intro acc
      simp only [List.foldl_cons]
      refine le_trans ?_ (ih _)
      split <;> omega

/-- C10: both lookup tensors are sized num_species wide and, in every state
    dimension, 1 + (maximum left_state_1 over all loaded rows) deep — not
    per-species degrees_of_freedom — so a lookup at a nonnegative state st
    is in bounds iff st is at most that maximum; and for the concrete
    loaded row (one-site, left_state_1 = 0, right_state_1 = 2) the state
    index right_state[0] = 2 that update_reactions consults after firing
    (new_reactions reads site_0_state from interaction.right) lies past the
    end of the tensor row of length 1. -/
theorem interaction_maps_sizing (num_species : Nat)
    (rows : List InteractionSql) :
    one_map_dims (one_site_interactions_map_of num_species rows)
      num_species (num_states_of rows).toNat ∧
    two_map_dims (two_site_interactions_map_of num_species rows)
      num_species (num_states_of rows).toNat ∧
    num_states_of rows = max_left_state rows + 1 ∧
    (∀ st : Int, 0 ≤ st →
      (st.toNat < (num_states_of rows).toNat ↔
        st ≤ max_left_state rows)) ∧
    ((NPMC.Reaction.mk (0, -1)
        (Interaction.mk 0 1 (0, 0) (0, 0) (2, 0) 1) 1
      ).interaction.right 0 = 2 ∧
     ¬ (((NPMC.Reaction.mk (0, -1)
          (Interaction.mk 0 1 (0, 0) (0, 0) (2, 0) 1) 1
        ).interaction.right 0).toNat
       < ((one_site_interactions_map_of 1
            [InteractionSql.mk 1 0 0 0 0 2 0 1]).getD 0 []).length)) := by
  have hnn : 0 ≤ max_left_state rows := max_left_state_acc_le rows 0
  refine ⟨?_, ?_, rfl, ?_, rfl, by decide⟩
  · exact fold_push_one_site_dims _ _ _ _ (empty_one_site_map_dims _ _)
  · exact fold_push_two_site_dims _ _ _ _ (empty_two_site_map_dims _ _)
  · intro st hst
    unfold num_states_of
    omega

/-- Witness for interaction_maps_sizing: at the concrete one-row table the
    one-site tensor is 1 x 1 and the consulted state 2 exceeds the
    maximum left state 0. -/
theorem interaction_maps_sizing_witness :
    one_map_dims (one_site_interactions_map_of 1
      [InteractionSql.mk 1 0 0 0 0 2 0 1]) 1
      (num_states_of [InteractionSql.mk 1 0 0 0 0 2 0 1]).toNat ∧
    (0 : Int) ≤ 2 ∧
    (((2 : Int).toNat < (num_states_of
        [InteractionSql.mk 1 0 0 0 0 2 0 1]).toNat) ↔
      (2 : Int) ≤ max_left_state [InteractionSql.mk 1 0 0 0 0 2 0 1]) := by
  have h := interaction_maps_sizing 1 [InteractionSql.mk 1 0 0 0 0 2 0 1]
  exact ⟨h.1, by decide, h.2.2.2.1 2 (by decide)⟩

/-- Auxiliary: the site set of a one-site reaction. -/
theorem site_set_one (r : NPMC.Reaction)
    (h : r.interaction.number_of_sites = 1) :
    r.site_set = {(r.sid 0).toNat} := by
  unfold NPMC.Reaction.site_set
  rw [h]
  rfl

/-- Auxiliary: the site set of a two-site reaction. -/
theorem site_set_two (r : NPMC.Reaction)
    (h : r.interaction.number_of_sites = 2) :
    r.site_set = {(r.sid 0).toNat, (r.sid 1).toNat} := by
  unfold NPMC.Reaction.site_set
  rw [h]
  ext x
  simp [Finset.mem_image]
  constructor
  · rintro ⟨k, hk, rfl⟩
    interval_cases k
    · exact Or.inl rfl
    · exact Or.inr rfl
  · rintro (rfl | rfl)
    · exact ⟨0, by omega, rfl⟩
    · exact ⟨1, by omega, rfl⟩

/-- Auxiliary: processing one reaction id in the collection loop inserts it
    into the removal set and erases it from the whole index, provided the
    only index entries naming it are at its own sites. -/
theorem remove_one_spec (num_sites : Nat) (cur : List NPMC.Reaction)
    (T : Finset Nat) (dep : Nat → Finset Nat) (id : Nat)
    (hwf : (cur.getD id default).wf num_sites)
    (hb : ∀ s, id ∈ dep s → s ∈ (cur.getD id default).site_set) :
    remove_one cur (T, dep) id
      = (insert id T, fun s => (dep s).erase id) := by
  unfold remove_one
  simp only []
  congr 1
  rcases hwf with ⟨h1, -⟩ | ⟨h2, -, -, -, -, -⟩
  · rw [if_neg (by omega)]
    funext s
    unfold dep_erase
    by_cases hs : s = ((cur.getD id default).sid 0).toNat
    · rw [if_pos hs]
    · rw [if_neg hs]
      refine (Finset.erase_eq_of_not_mem ?_).symm
      intro hmem
      apply hs
      have := hb s hmem
      rw [site_set_one _ h1] at this
      simpa using this
  · rw [if_pos h2]
    funext s
    unfold dep_erase
    by_cases hs1 : s = ((cur.getD id default).sid 1).toNat
    · rw [if_pos hs1]
      by_cases hs0 : s = ((cur.getD id default).sid 0).toNat
      · rw [if_pos hs0, Finset.erase_idem]
      · rw [if_neg hs0]
    · rw [if_neg hs1]
      by_cases hs0 : s = ((cur.getD id default).sid 0).toNat
      · rw [if_pos hs0]
      · rw [if_neg hs0]
        refine (Finset.erase_eq_of_not_mem ?_).symm
        intro hmem
        have := hb s hmem
        rw [site_set_two _ h2] at this
        rcases Finset.mem_insert.mp this with h | h
        · exact hs0 h
        · exact hs1 (Finset.mem_singleton.mp h)

/-- Auxiliary: the collection loop over a list of reaction ids adds them
    all to the removal set and erases them from the whole index. -/
theorem remove_one_fold (num_sites : Nat) (cur : List NPMC.Reaction) :
    ∀ (L : List Nat) (T : Finset Nat) (dep : Nat → Finset Nat),
    (∀ id ∈ L, (cur.getD id default).wf num_sites ∧
      ∀ s, id ∈ dep s → s ∈ (cur.getD id default).site_set) →
    L.foldl (remove_one cur) (T, dep)
      = (T ∪ L.toFinset, fun s => dep s \ L.toFinset) := by
  intro L
  induction L with
  | nil =>
      intro T dep h
      simp
  | cons id L ih =>
      intro T dep h
      simp only [List.foldl_cons]
      rw [remove_one_spec num_sites cur T dep id
            (h id (List.mem_cons_self _ _)).1
            (h id (List.mem_cons_self _ _)).2]
      rw [ih (insert id T) (fun s => (dep s).erase id) ?_]
      · have hT : insert id T ∪ L.toFinset = T ∪ (id :: L).toFinset := by
          ext x
          simp
        have hdep : (fun s => ((dep s).erase id) \ L.toFinset)
            = fun s => dep s \ (id :: L).toFinset := by
          funext s
          ext x
          simp [Finset.mem_erase, Finset.mem_sdiff]
          tauto
        rw [hT, hdep]
      · intro id2 hid2
        refine ⟨(h id2 (List.mem_cons_of_mem _ hid2)).1, ?_⟩
        intro s hs
        exact (h id2 (List.mem_cons_of_mem _ hid2)).2 s
          (Finset.mem_of_mem_erase hs)

/-- Auxiliary: the slot collection loop of update_reactions collects
    exactly the union of the index entries of the fired reaction's sites
    and erases that union from the whole index. -/
theorem remove_phase_spec (num_sites : Nat) (cur : List NPMC.Reaction)
    (dep : Nat → Finset Nat) (fired : NPMC.Reaction)
    (hf : fired.wf num_sites)
    (hfwd : ∀ i, i < cur.length → (cur.getD i default).wf num_sites)
    (hbwd : ∀ s i, i ∈ dep s →
      i < cur.length ∧ s ∈ (cur.getD i default).site_set) :
    remove_phase cur dep fired
      = (removal_set dep fired,
         fun s => dep s \ removal_set dep fired) := by
  have hyp0 : ∀ (dep0 : Nat → Finset Nat),
      (∀ s x, x ∈ dep0 s → x ∈ dep s) →
      ∀ (L : List Nat), (∀ id ∈ L, ∃ s, id ∈ dep0 s) →
      ∀ id ∈ L, (cur.getD id default).wf num_sites ∧
        ∀ s, id ∈ dep0 s → s ∈ (cur.getD id default).site_set := by
    intro dep0 hsub L hL id hid
    obtain ⟨s0, hs0⟩ := hL id hid
    obtain ⟨hlt, -⟩ := hbwd s0 id (hsub s0 id hs0)
    exact ⟨hfwd id hlt,
      fun s hs => (hbwd s id (hsub s id hs)).2⟩
  rcases hf with ⟨h1, -⟩ | ⟨h2, -, -, -, -, -⟩
  · unfold remove_phase
    rw [h1, show List.range 1 = [0] from rfl]
    simp only [List.foldl_cons, List.foldl_nil]
    rw [remove_one_fold num_sites cur _ _ _
          (hyp0 dep (fun s x hx => hx) _
            (fun id hid => ⟨_, (Finset.mem_sort (α := Nat) (· ≤ ·)).mp hid⟩))]
    have hR : removal_set dep fired = dep ((fired.sid 0).toNat) := by
      unfold removal_set
      rw [h1]
      ext x
      simp
    rw [Finset.sort_toFinset, hR]
    simp
  · unfold remove_phase
    rw [h2, show List.range 2 = [0, 1] from rfl]
    simp only [List.foldl_cons, List.foldl_nil]
    rw [remove_one_fold num_sites cur _ _ _
          (hyp0 dep (fun s x hx => hx) _
            (fun id hid => ⟨_, (Finset.mem_sort (α := Nat) (· ≤ ·)).mp hid⟩))]
    simp only [Finset.sort_toFinset, Finset.empty_union]
    rw [remove_one_fold num_sites cur _ _ _
          (hyp0 (fun s => dep s \ dep ((fired.sid 0).toNat))
            (fun s x hx => (Finset.mem_sdiff.mp hx).1) _
            (fun id hid => ⟨_, (Finset.mem_sort (α := Nat) (· ≤ ·)).mp hid⟩))]
    have hR : removal_set dep fired
        = dep ((fired.sid 0).toNat) ∪ dep ((fired.sid 1).toNat) := by
      unfold removal_set
      rw [h2]
      ext x
      simp [Finset.mem_biUnion]
      constructor
      · rintro ⟨k, hk, hx⟩
        interval_cases k
        · exact Or.inl hx
        · exact Or.inr hx
      · rintro (hx | hx)
        · exact ⟨0, by omega, hx⟩
        · exact ⟨1, by omega, hx⟩
    rw [Finset.sort_toFinset, hR]
    congr 1
    · ext x
      simp [Finset.mem_sdiff]
    · funext s
      ext x
      simp [Finset.mem_sdiff]
      tauto

/-- Auxiliary: getD in the left part of an append. -/
theorem getD_append_left {α : Type} (l l2 : List α) (i : Nat) (d : α)
    (h : i < l.length) : (l ++ l2).getD i d = l.getD i d := by
  simp [List.getD_eq_getElem?_getD, List.getElem?_append_left h]

/-- Auxiliary: getD at the appended element. -/
theorem getD_concat_self {α : Type} (l : List α) (x : α) (d : α) :
    (l ++ [x]).getD l.length d = x := by
  simp [List.getD_eq_getElem?_getD, List.getElem?_concat_length]

/-- Auxiliary: getD inside a take. -/
theorem getD_take_of_lt {α : Type} (l : List α) (t i : Nat) (d : α)
    (h : i < t) : (l.take t).getD i d = l.getD i d := by
  simp [List.getD_eq_getElem?_getD, List.getElem?_take, h]

/-- Auxiliary: the per-site index invariant is exactly the liveset
    invariant at the full slot range. -/
theorem NPInv_iff_live (num_sites : Nat) (cur : List NPMC.Reaction)
    (dep : Nat → Finset Nat) :
    NPInv num_sites cur dep ↔
      (live_fwd num_sites cur dep (Finset.range cur.length) ∧
       live_bwd cur dep (Finset.range cur.length)) := by
  unfold NPInv live_fwd live_bwd
  constructor
  · rintro ⟨h1, h2⟩
    refine ⟨?_, ?_⟩
    · intro i hi
      rw [Finset.mem_range] at hi
      exact ⟨hi, (h1 i hi).1, (h1 i hi).2⟩
    · intro s i hi
      exact ⟨Finset.mem_range.mpr (h2 s i hi).1, (h2 s i hi).2⟩
  · rintro ⟨h1, h2⟩
    refine ⟨?_, ?_⟩
    · intro i hi
      exact ⟨(h1 i (Finset.mem_range.mpr hi)).2.1,
             (h1 i (Finset.mem_range.mpr hi)).2.2⟩
    · intro s i hi
      exact ⟨Finset.mem_range.mp (h2 s i hi).1, (h2 s i hi).2⟩

/-- Auxiliary: erasing a slot set from the whole index preserves the
    liveset invariant on the surviving lives. -/
theorem live_kill (num_sites : Nat) (cur : List NPMC.Reaction)
    (dep : Nat → Finset Nat) (S R : Finset Nat)
    (hf : live_fwd num_sites cur dep S) (hb : live_bwd cur dep S) :
    live_fwd num_sites cur (fun s => dep s \ R) (S \ R) ∧
    live_bwd cur (fun s => dep s \ R) (S \ R) := by
  constructor
  · intro i hi
    obtain ⟨hiS, hiR⟩ := Finset.mem_sdiff.mp hi
    obtain ⟨hlt, hwf, hreg⟩ := hf i hiS
    exact ⟨hlt, hwf, fun k hk =>
      Finset.mem_sdiff.mpr ⟨hreg k hk, hiR⟩⟩
  · intro s i hi
    obtain ⟨hidep, hiR⟩ := Finset.mem_sdiff.mp hi
    obtain ⟨hiS, hsite⟩ := hb s i hidep
    exact ⟨Finset.mem_sdiff.mpr ⟨hiS, hiR⟩, hsite⟩

/-- Auxiliary: membership in the index after registering a reaction in a
    slot under each of its sites. -/
theorem mem_dep_insert_sites (dep : Nat → Finset Nat) (r : NPMC.Reaction)
    (slot : Nat) (s : Nat) (i : Nat) :
    (i ∈ dep_insert_sites dep r slot s ↔
      i ∈ dep s ∨ (i = slot ∧ s ∈ r.site_set)) := by
  have key : ∀ (ks : List Nat) (dp : Nat → Finset Nat),
      i ∈ (ks.foldl (fun dp k => dep_insert dp (r.sid k) slot) dp) s ↔
        i ∈ dp s ∨ (i = slot ∧ ∃ k ∈ ks, s = (r.sid k).toNat) := by
    intro ks
    induction ks with
    | nil => intro dp; simp
    | cons k ks ih =>
        intro dp
        simp only [List.foldl_cons]
        rw [ih]
        unfold dep_insert
        by_cases hs : s = (r.sid k).toNat
        · rw [if_pos hs]
          simp [Finset.mem_insert, hs]
          tauto
        · rw [if_neg hs]
          simp [hs]
  unfold dep_insert_sites
  rw [key]
  unfold NPMC.Reaction.site_set
  simp [Finset.mem_image, List.mem_range, eq_comm]

/-- Auxiliary: writing a well-formed reaction into a dead in-range slot and
    registering it preserves the liveset invariant with the slot made
    live. -/
theorem live_write (num_sites : Nat) (cur : List NPMC.Reaction)
    (dep : Nat → Finset Nat) (S : Finset Nat) (d : Nat)
    (nr : NPMC.Reaction)
    (hf : live_fwd num_sites cur dep S) (hb : live_bwd cur dep S)
    (hd : d < cur.length) (hdS : d ∉ S) (hnr : nr.wf num_sites) :
    live_fwd num_sites (cur.set d nr) (dep_insert_sites dep nr d)
      (insert d S) ∧
    live_bwd (cur.set d nr) (dep_insert_sites dep nr d) (insert d S) := by
  constructor
  · intro i hi
    rcases Finset.mem_insert.mp hi with rfl | hiS
    · rw [getD_set_self _ _ _ _ hd]
      refine ⟨by simpa using hd, hnr, ?_⟩
      intro k hk
      rw [mem_dep_insert_sites]
      refine Or.inr ⟨rfl, ?_⟩
      unfold NPMC.Reaction.site_set
      exact Finset.mem_image.mpr ⟨k, Finset.mem_range.mpr hk, rfl⟩
    · have hne : i ≠ d := fun hcon => hdS (hcon ▸ hiS)
      obtain ⟨hlt, hwf, hreg⟩ := hf i hiS
      rw [getD_set_ne _ _ _ _ _ (Ne.symm hne)]
      refine ⟨by simpa using hlt, hwf, ?_⟩
      intro k hk
      rw [mem_dep_insert_sites]
      exact Or.inl (hreg k hk)
  · intro s i hi
    rcases (mem_dep_insert_sites dep nr d s i).mp hi with hold | ⟨rfl, hsite⟩
    · obtain ⟨hiS, hsitei⟩ := hb s i hold
      have hne : i ≠ d := fun hcon => hdS (hcon ▸ hiS)
      rw [getD_set_ne _ _ _ _ _ (Ne.symm hne)]
      exact ⟨Finset.mem_insert_of_mem hiS, hsitei⟩
    · rw [getD_set_self _ _ _ _ hd]
      exact ⟨Finset.mem_insert_self _ _, hsite⟩

/-- Auxiliary: appending a well-formed reaction at the tail and registering
    it preserves the liveset invariant with the tail slot made live. -/
theorem live_append (num_sites : Nat) (cur : List NPMC.Reaction)
    (dep : Nat → Finset Nat) (S : Finset Nat) (nr : NPMC.Reaction)
    (hf : live_fwd num_sites cur dep S) (hb : live_bwd cur dep S)
    (hnr : nr.wf num_sites) :
    live_fwd num_sites (cur ++ [nr]) (dep_insert_sites dep nr cur.length)
      (insert cur.length S) ∧
    live_bwd (cur ++ [nr]) (dep_insert_sites dep nr cur.length)
      (insert cur.length S) := by
  constructor
  · intro i hi
    rcases Finset.mem_insert.mp hi with rfl | hiS
    · rw [getD_concat_self]
      refine ⟨by simp, hnr, ?_⟩
      intro k hk
      rw [mem_dep_insert_sites]
      refine Or.inr ⟨rfl, ?_⟩
      unfold NPMC.Reaction.site_set
      exact Finset.mem_image.mpr ⟨k, Finset.mem_range.mpr hk, rfl⟩
    · obtain ⟨hlt, hwf, hreg⟩ := hf i hiS
      rw [getD_append_left _ _ _ _ hlt]
      refine ⟨by simp; omega, hwf, ?_⟩
      intro k hk
      rw [mem_dep_insert_sites]
      exact Or.inl (hreg k hk)
  · intro s i hi
    rcases (mem_dep_insert_sites dep nr cur.length s i).mp hi with
      hold | ⟨rfl, hsite⟩
    · obtain ⟨hiS, hsitei⟩ := hb s i hold
      obtain ⟨hlt, -, -⟩ := hf i hiS
      rw [getD_append_left _ _ _ _ hlt]
      exact ⟨Finset.mem_insert_of_mem hiS, hsitei⟩
    · rw [getD_concat_self]
      exact ⟨Finset.mem_insert_self _ _, hsite⟩

/-- Auxiliary: re-registering a well-formed moved reaction rewrites the
    index exactly at its sites, erasing the source slot and inserting the
    destination slot. -/
theorem move_fix_spec (num_sites : Nat) (r : NPMC.Reaction)
    (hr : r.wf num_sites) (dep : Nat → Finset Nat) (src dest : Nat) :
    move_fix dep r src dest
      = fun s => if s ∈ r.site_set then insert dest ((dep s).erase src)
                 else dep s := by
  unfold move_fix
  rcases hr with ⟨h1, -⟩ | ⟨h2, hnn0, -, hnn1, -, hne⟩
  · rw [h1, show List.range 1 = [0] from rfl]
    simp only [List.foldl_cons, List.foldl_nil]
    funext s
    rw [site_set_one r h1]
    unfold dep_insert dep_erase
    by_cases hs : s = (r.sid 0).toNat
    · rw [if_pos hs, if_pos hs, if_pos (Finset.mem_singleton.mpr hs)]
    · rw [if_neg hs, if_neg hs,
          if_neg (fun hcon => hs (Finset.mem_singleton.mp hcon))]
  · have htne : (r.sid 0).toNat ≠ (r.sid 1).toNat := by omega
    rw [h2, show List.range 2 = [0, 1] from rfl]
    simp only [List.foldl_cons, List.foldl_nil]
    funext s
    rw [site_set_two r h2]
    simp only [dep_insert, dep_erase]
    by_cases hs1 : s = (r.sid 1).toNat
    · have hs0 : ¬ s = (r.sid 0).toNat := by omega
      simp only [if_pos hs1, if_neg hs0]
      rw [if_pos (show s ∈ ({(r.sid 0).toNat, (r.sid 1).toNat}
            : Finset Nat) by simp [hs1])]
    · by_cases hs0 : s = (r.sid 0).toNat
      · simp only [if_neg hs1, if_pos hs0]
        rw [if_pos (show s ∈ ({(r.sid 0).toNat, (r.sid 1).toNat}
              : Finset Nat) by simp [hs0])]
      · simp only [if_neg hs1, if_neg hs0]
        rw [if_neg (show ¬ s ∈ ({(r.sid 0).toNat, (r.sid 1).toNat}
              : Finset Nat) by simp [hs0, hs1])]

/-- Auxiliary: moving a live reaction from a source slot into a dead
    in-range destination slot preserves the liveset invariant, with the
    destination made live and the source vacated. -/
theorem live_move (num_sites : Nat) (cur : List NPMC.Reaction)
    (dep : Nat → Finset Nat) (S : Finset Nat) (src dest : Nat)
    (hf : live_fwd num_sites cur dep S) (hb : live_bwd cur dep S)
    (hsrc : src ∈ S) (hdest : dest ∉ S) (hdl : dest < cur.length) :
    live_fwd num_sites (cur.set dest (cur.getD src default))
      (move_fix dep (cur.getD src default) src dest)
      (insert dest (S.erase src)) ∧
    live_bwd (cur.set dest (cur.getD src default))
      (move_fix dep (cur.getD src default) src dest)
      (insert dest (S.erase src)) := by
  have hsd : src ≠ dest := fun hcon => hdest (hcon ▸ hsrc)
  obtain ⟨hsl, hsw, hsreg⟩ := hf src hsrc
  have hpt : ∀ s, move_fix dep (cur.getD src default) src dest s
      = if s ∈ (cur.getD src default).site_set
        then insert dest ((dep s).erase src) else dep s := by
    intro s
    rw [move_fix_spec num_sites _ hsw]
  constructor
  · intro i hi
    rcases Finset.mem_insert.mp hi with rfl | hiS
    · rw [getD_set_self _ _ _ _ hdl]
      refine ⟨by simpa using hdl, hsw, ?_⟩
      intro k hk
      have hsite : (((cur.getD src default).sid k).toNat)
          ∈ (cur.getD src default).site_set := by
        unfold NPMC.Reaction.site_set
        exact Finset.mem_image.mpr ⟨k, Finset.mem_range.mpr hk, rfl⟩
      rw [hpt _, if_pos hsite]
      exact Finset.mem_insert_self _ _
    · obtain ⟨hine, hiS2⟩ := Finset.mem_erase.mp hiS
      obtain ⟨hlt, hwf, hreg⟩ := hf i hiS2
      have hid : i ≠ dest := fun hcon => hdest (hcon ▸ hiS2)
      rw [getD_set_ne _ _ _ _ _ (Ne.symm hid)]
      refine ⟨by simpa using hlt, hwf, ?_⟩
      intro k hk
      rw [hpt _]
      by_cases hsite : (((cur.getD i default).sid k).toNat)
          ∈ (cur.getD src default).site_set
      · rw [if_pos hsite]
        exact Finset.mem_insert_of_mem
          (Finset.mem_erase.mpr ⟨hine, hreg k hk⟩)
      · rw [if_neg hsite]
        exact hreg k hk
  · intro s i hi
    rw [hpt _] at hi
    by_cases hsite : s ∈ (cur.getD src default).site_set
    · rw [if_pos hsite] at hi
      rcases Finset.mem_insert.mp hi with rfl | hi2
      · rw [getD_set_self _ _ _ _ hdl]
        exact ⟨Finset.mem_insert_self _ _, hsite⟩
      · obtain ⟨hine, hidep⟩ := Finset.mem_erase.mp hi2
        obtain ⟨hiS, hsitei⟩ := hb s i hidep
        have hid : i ≠ dest := fun hcon => hdest (hcon ▸ hiS)
        rw [getD_set_ne _ _ _ _ _ (Ne.symm hid)]
        exact ⟨Finset.mem_insert_of_mem
          (Finset.mem_erase.mpr ⟨hine, hiS⟩), hsitei⟩
    · rw [if_neg hsite] at hi
      obtain ⟨hiS, hsitei⟩ := hb s i hi
      have hine : i ≠ src := by
        rintro rfl
        exact hsite hsitei
      have hid : i ≠ dest := fun hcon => hdest (hcon ▸ hiS)
      rw [getD_set_ne _ _ _ _ _ (Ne.symm hid)]
      exact ⟨Finset.mem_insert_of_mem
        (Finset.mem_erase.mpr ⟨hine, hiS⟩), hsitei⟩

/-- Auxiliary: the insertion loop of update_reactions preserves the liveset
    invariant: the dead slots are exactly the removal slots, new reactions
    consume them in order (or are appended at the tail), and afterwards the
    dead slots are exactly the unconsumed removal slots. -/
theorem add_phase_spec (num_sites : Nat) :
    ∀ (news : List NPMC.Reaction) (dests : List Nat)
      (cur : List NPMC.Reaction) (dep : Nat → Finset Nat) (S : Finset Nat),
    live_fwd num_sites cur dep S → live_bwd cur dep S →
    (∀ nr ∈ news, nr.wf num_sites) → dests.Nodup →
    S ⊆ Finset.range cur.length →
    Finset.range cur.length \ S = dests.toFinset →
    ∃ S1,
      live_fwd num_sites (add_phase news dests cur dep).1
        (add_phase news dests cur dep).2.1 S1 ∧
      live_bwd (add_phase news dests cur dep).1
        (add_phase news dests cur dep).2.1 S1 ∧
      S1 ⊆ Finset.range (add_phase news dests cur dep).1.length ∧
      Finset.range (add_phase news dests cur dep).1.length \ S1
        = ((add_phase news dests cur dep).2.2).toFinset ∧
      (add_phase news dests cur dep).2.2 = dests.drop news.length ∧
      (add_phase news dests cur dep).1.length
        = cur.length + (news.length - dests.length) := by
  intro news
  induction news with
  | nil =>
      intro dests cur dep S hf hb hwf hnd hsub hcomp
      exact ⟨S, hf, hb, hsub, hcomp, by simp [add_phase], by simp [add_phase]⟩
  | cons nr news ih =>
      intro dests cur dep S hf hb hwf hnd hsub hcomp
      cases dests with
      | nil =>
          have hS : S = Finset.range cur.length := by
            have h0 : Finset.range cur.length \ S = ∅ := by
              simpa using hcomp
            have := Finset.sdiff_eq_empty_iff_subset.mp h0
            exact Finset.Subset.antisymm hsub this
          have h1 := live_append num_sites cur dep S nr hf hb
            (hwf nr (List.mem_cons_self _ _))
          have hrec := ih [] (cur ++ [nr])
            (dep_insert_sites dep nr cur.length)
            (insert cur.length S) h1.1 h1.2
            (fun x hx => hwf x (List.mem_cons_of_mem _ hx))
            List.nodup_nil
            (by
              intro x hx
              rcases Finset.mem_insert.mp hx with rfl | hxS
              · simp
              · have := hsub hxS
                rw [Finset.mem_range] at this ⊢
                simp
                omega)
            (by
              rw [hS]
              ext x
              simp [Finset.mem_sdiff, Finset.mem_range, Finset.mem_insert]
              omega)
          obtain ⟨S1, g1, g2, g3, g4, g5, g6⟩ := hrec
          refine ⟨S1, ?_, ?_, ?_, ?_, ?_, ?_⟩ <;>
            simp only [add_phase]
          · exact g1
          · exact g2
          · exact g3
          · exact g4
          · simpa using g5
          · rw [g6]
            simp
            omega
      | cons d ds =>
          have hd : d < cur.length ∧ d ∉ S := by
            have hmem : d ∈ Finset.range cur.length \ S := by
              rw [hcomp]
              simp
            obtain ⟨h1, h2⟩ := Finset.mem_sdiff.mp hmem
            exact ⟨Finset.mem_range.mp h1, h2⟩
          have h1 := live_write num_sites cur dep S d nr hf hb
            hd.1 hd.2 (hwf nr (List.mem_cons_self _ _))
          have hnodup : ds.Nodup := (List.nodup_cons.mp hnd).2
          have hdnotds : d ∉ ds := (List.nodup_cons.mp hnd).1
          have hrec := ih ds (cur.set d nr)
            (dep_insert_sites dep nr d) (insert d S) h1.1 h1.2
            (fun x hx => hwf x (List.mem_cons_of_mem _ hx))
            hnodup
            (by
              intro x hx
              rw [List.length_set]
              rcases Finset.mem_insert.mp hx with rfl | hxS
              · exact Finset.mem_range.mpr hd.1
              · exact hsub hxS)
            (by
              rw [List.length_set]
              have : Finset.range cur.length \ insert d S
                  = (Finset.range cur.length \ S).erase d := by
                ext x
                simp [Finset.mem_sdiff, Finset.mem_erase]
                tauto
              rw [this, hcomp, List.toFinset_cons]
              exact Finset.erase_insert (by simpa using hdnotds))
          obtain ⟨S1, g1, g2, g3, g4, g5, g6⟩ := hrec
          refine ⟨S1, ?_, ?_, ?_, ?_, ?_, ?_⟩ <;>
            simp only [add_phase]
          · exact g1
          · exact g2
          · exact g3
          · exact g4
          · simpa using g5
          · rw [g6]
            rw [List.length_set]
            simp

/-- Auxiliary: getD at an in-range position. -/
theorem getD_eq_getElem_nat (ds : List Nat) (p : Nat)
    (h : p < ds.length) : ds.getD p 0 = ds[p] := by
  simp [List.getD_eq_getElem?_getD, List.getElem?_eq_getElem h]

/-- Auxiliary: strict sortedness pointwise. -/
theorem sorted_getElem_lt (ds : List Nat)
    (hsort : List.Pairwise (· < ·) ds) (p q : Nat)
    (hp : p < ds.length) (hq : q < ds.length) (hpq : p < q) :
    ds[p] < ds[q] :=
  List.pairwise_iff_getElem.mp hsort p q hp hq hpq

/-- Auxiliary: in a strictly sorted Nat list, the value at a position is at
    least the position. -/
theorem sorted_idx_le (ds : List Nat)
    (hsort : List.Pairwise (· < ·) ds) :
    ∀ p, ∀ hp : p < ds.length, p ≤ ds[p] := by
  intro p
  induction p with
  | zero => intro hp; exact Nat.zero_le _
  | succ p ih =>
      intro hp
      have h1 : p < ds.length := by omega
      have h2 := sorted_getElem_lt ds hsort p (p + 1) h1 hp (by omega)
      have h3 := ih h1
      omega

/-- Auxiliary: membership in a take, by position. -/
theorem mem_take_iff (ds : List Nat) (j x : Nat) :
    x ∈ ds.take j ↔ ∃ p, ∃ hp : p < ds.length, p < j ∧ ds[p] = x := by
  rw [List.mem_iff_getElem]
  constructor
  · rintro ⟨i, hi, rfl⟩
    have hi2 := hi
    rw [List.length_take, Nat.lt_min] at hi2
    exact ⟨i, hi2.2, hi2.1, by simp⟩
  · rintro ⟨p, hp, hpj, rfl⟩
    have hlt : p < (ds.take j).length := by
      rw [List.length_take]
      omega
    exact ⟨p, hlt, by simp⟩

/-- Auxiliary: membership in a drop, by position. -/
theorem mem_drop_iff (ds : List Nat) (j x : Nat) :
    x ∈ ds.drop j ↔ ∃ p, ∃ hp : p < ds.length, j ≤ p ∧ ds[p] = x := by
  rw [List.mem_iff_getElem]
  constructor
  · rintro ⟨i, hi, rfl⟩
    rw [List.length_drop] at hi
    refine ⟨j + i, by omega, by omega, by simp⟩
  · rintro ⟨p, hp, hjp, rfl⟩
    refine ⟨p - j, by rw [List.length_drop]; omega, ?_⟩
    have hpe : j + (p - j) = p := by omega
    simp [hpe]

/-- Auxiliary: a strictly sorted list has no duplicates. -/
theorem pairwise_lt_nodup (ds : List Nat)
    (hsort : List.Pairwise (· < ·) ds) : ds.Nodup :=
  hsort.imp (fun h => Nat.ne_of_lt h)

/-- Auxiliary: the number of distinct values among the first j entries. -/
theorem take_toFinset_card (ds : List Nat) (hnd : ds.Nodup) (j : Nat)
    (hj : j ≤ ds.length) : (ds.take j).toFinset.card = j := by
  rw [List.toFinset_card_of_nodup (hnd.sublist (List.take_sublist _ _))]
  rw [List.length_take]
  omega

/-- Auxiliary: the number of distinct values among the dropped entries. -/
theorem drop_toFinset_card (ds : List Nat) (hnd : ds.Nodup) (j : Nat) :
    (ds.drop j).toFinset.card = ds.length - j := by
  rw [List.toFinset_card_of_nodup (hnd.sublist (List.drop_sublist _ _))]
  rw [List.length_drop]

/-- Auxiliary: the values split into the taken and the dropped ones. -/
theorem take_drop_toFinset_union (ds : List Nat) (j : Nat) :
    (ds.take j).toFinset ∪ (ds.drop j).toFinset = ds.toFinset := by
  rw [← List.toFinset_append, List.take_append_drop]

/-- Auxiliary: taken values are strictly below dropped values in a strictly
    sorted list. -/
theorem take_lt_drop (ds : List Nat)
    (hsort : List.Pairwise (· < ·) ds) (j : Nat) :
    ∀ y ∈ ds.take j, ∀ x ∈ ds.drop j, y < x := by
  have h2 : (ds.take j ++ ds.drop j).Pairwise (· < ·) := by
    rw [List.take_append_drop]
    exact hsort
  exact (List.pairwise_append.mp h2).2.2

/-- Auxiliary: one more taken value. -/
theorem take_succ_toFinset (ds : List Nat) (j : Nat)
    (hj : j < ds.length) :
    (ds.take (j + 1)).toFinset = insert ds[j] (ds.take j).toFinset := by
  rw [List.take_succ, List.getElem?_eq_getElem hj]
  rw [List.toFinset_append]
  ext x
  simp [or_comm]

/-- Auxiliary: the compaction loop of update_reactions.  Entered with the
    live slots being exactly the complement of the removal slots tracked by
    the counting and placement invariants, it terminates with the live
    slots being exactly the initial segment below length minus removals,
    with the liveset invariant intact. -/
theorem move_loop_spec (num_sites L m : Nat) (ds : List Nat)
    (hsort : List.Pairwise (· < ·) ds)
    (hlen : ds.length = m)
    (hran : ∀ d ∈ ds, d < L) :
    ∀ (h1 : Nat) (j : Nat) (cur : List NPMC.Reaction)
      (dep : Nat → Finset Nat),
    cur.length = L → j ≤ m → h1 ≤ L →
    j + (ds.toFinset ∩ Finset.Ico h1 L).card = L - h1 →
    (∀ x, h1 ≤ x → x < L - m → x ∈ ds.toFinset) →
    (j = m → L - m ≤ h1) →
    live_fwd num_sites cur dep
      ((Finset.range h1 \ ds.toFinset) ∪ (ds.take j).toFinset) →
    live_bwd cur dep
      ((Finset.range h1 \ ds.toFinset) ∪ (ds.take j).toFinset) →
    (move_loop m ds j h1 cur dep).1.length = L ∧
    live_fwd num_sites (move_loop m ds j h1 cur dep).1
      (move_loop m ds j h1 cur dep).2 (Finset.range (L - m)) ∧
    live_bwd (move_loop m ds j h1 cur dep).1
      (move_loop m ds j h1 cur dep).2 (Finset.range (L - m)) := by
  have hnd : ds.Nodup := pairwise_lt_nodup ds hsort
  have hDcard : ds.toFinset.card = m := by
    rw [List.toFinset_card_of_nodup hnd, hlen]
  have htakeD : ∀ j, (ds.take j).toFinset ⊆ ds.toFinset := by
    intro j x hx
    rw [List.mem_toFinset] at hx ⊢
    exact List.mem_of_mem_take hx
  intro h1
  induction h1 with
  | zero =>
      intro j cur dep hclen hjle hh1 hI1 hI3 hI2 hf hb
      have hres : move_loop m ds j 0 cur dep = (cur, dep) := by
        unfold move_loop
        split <;> rfl
      have hDfull : ds.toFinset ∩ Finset.Ico 0 L = ds.toFinset := by
        ext x
        simp only [Finset.mem_inter, Finset.mem_Ico]
        constructor
        · tauto
        · intro hx
          exact ⟨hx, Nat.zero_le _, hran x (List.mem_toFinset.mp hx)⟩
      rw [hDfull, hDcard] at hI1
      by_cases hjm : m ≤ j
      · have hj : j = m := le_antisymm hjle hjm
        have hL0 : L ≤ m := by
          have := hI2 hj
          omega
        have hm0 : m = 0 ∧ L = 0 ∧ j = 0 := by omega
        obtain ⟨rfl, hL, rfl⟩ := hm0
        have hSeq : (Finset.range 0 \ ds.toFinset)
            ∪ (ds.take 0).toFinset = Finset.range (L - 0) := by
          rw [hL]
          simp
        rw [hSeq] at hf hb
        rw [hres]
        exact ⟨hclen, hf, hb⟩
      · have hjlm : j = L - m := by omega
        have hjlt : j < ds.length := by omega
        have hsub : Finset.range j ⊆ (ds.take j).toFinset := by
          intro v hv
          rw [Finset.mem_range] at hv
          have hvD : v ∈ ds.toFinset := hI3 v (Nat.zero_le _) (by omega)
          rw [List.mem_toFinset, List.mem_iff_getElem] at hvD
          obtain ⟨p, hp, rfl⟩ := hvD
          have hple := sorted_idx_le ds hsort p hp
          rw [List.mem_toFinset, mem_take_iff]
          exact ⟨p, hp, by omega, rfl⟩
        have hcards : (ds.take j).toFinset.card ≤ (Finset.range j).card := by
          rw [take_toFinset_card ds hnd j (by omega), Finset.card_range]
        have hSeq0 : Finset.range j = (ds.take j).toFinset :=
          Finset.eq_of_subset_of_card_le hsub hcards
        have hSeq : (Finset.range 0 \ ds.toFinset)
            ∪ (ds.take j).toFinset = Finset.range (L - m) := by
          rw [← hSeq0, ← hjlm]
          simp
        rw [hSeq] at hf hb
        rw [hres]
        exact ⟨hclen, hf, hb⟩
  | succ h ih =>
      intro j cur dep hclen hjle hh1 hI1 hI3 hI2 hf hb
      by_cases hjm : m ≤ j
      · -- all destinations filled: the loop exits at once
        have hj : j = m := le_antisymm hjle hjm
        have hres : move_loop m ds j (h + 1) cur dep = (cur, dep) := by
          unfold move_loop
          rw [if_pos hjm]
        have hup : L - m ≤ h + 1 := hI2 hj
        have hc0 : (ds.toFinset ∩ Finset.Ico (h + 1) L).card = 0 ∧
            h + 1 = L - m := by
          constructor <;> omega
        have hDempty : ds.toFinset ∩ Finset.Ico (h + 1) L = ∅ :=
          Finset.card_eq_zero.mp hc0.1
        have hDlt : ∀ d ∈ ds.toFinset, d < h + 1 := by
          intro d hd
          by_contra hcon
          have : d ∈ ds.toFinset ∩ Finset.Ico (h + 1) L := by
            rw [Finset.mem_inter, Finset.mem_Ico]
            exact ⟨hd, by omega, hran d (List.mem_toFinset.mp hd)⟩
          rw [hDempty] at this
          simp at this
        have htakeall : ds.take j = ds := by
          rw [hj, ← hlen]
          exact List.take_length _
        have hSeq : (Finset.range (h + 1) \ ds.toFinset)
            ∪ (ds.take j).toFinset = Finset.range (L - m) := by
          rw [htakeall, ← hc0.2]
          ext x
          simp only [Finset.mem_union, Finset.mem_sdiff, Finset.mem_range]
          constructor
          · rintro (⟨hx, -⟩ | hx)
            · exact hx
            · exact hDlt x hx
          · intro hx
            by_cases hxD : x ∈ ds.toFinset
            · exact Or.inr hxD
            · exact Or.inl ⟨hx, hxD⟩
        rw [hSeq] at hf hb
        rw [hres]
        exact ⟨hclen, hf, hb⟩
      · have hjltm : j < m := by omega
        have hjlt : j < ds.length := by omega
        have hgd : ds.getD j 0 = ds[j] := getD_eq_getElem_nat ds j hjlt
        by_cases hmem : h ∈ ds
        · -- skip branch: the candidate source slot is itself dead
          have hres : move_loop m ds j (h + 1) cur dep
              = move_loop m ds j h cur dep := by
            conv_lhs => unfold move_loop
            rw [if_neg hjm]
            simp only []
            rw [if_pos hmem]
          have hhL : h < L := by omega
          have hIco : ds.toFinset ∩ Finset.Ico h L
              = insert h (ds.toFinset ∩ Finset.Ico (h + 1) L) := by
            ext x
            simp only [Finset.mem_inter, Finset.mem_Ico, Finset.mem_insert]
            constructor
            · rintro ⟨hxD, hx1, hx2⟩
              by_cases hxh : x = h
              · exact Or.inl hxh
              · exact Or.inr ⟨hxD, by omega, hx2⟩
            · rintro (rfl | ⟨hxD, hx1, hx2⟩)
              · exact ⟨List.mem_toFinset.mpr hmem, by omega, hhL⟩
              · exact ⟨hxD, by omega, hx2⟩
          have hnotin : h ∉ ds.toFinset ∩ Finset.Ico (h + 1) L := by
            rw [Finset.mem_inter, Finset.mem_Ico]
            rintro ⟨-, hcon, -⟩
            omega
          have hI1' : j + (ds.toFinset ∩ Finset.Ico h L).card = L - h := by
            rw [hIco, Finset.card_insert_of_not_mem hnotin]
            omega
          have hSs : Finset.range (h + 1) \ ds.toFinset
              = Finset.range h \ ds.toFinset := by
            ext x
            simp only [Finset.mem_sdiff, Finset.mem_range]
            constructor
            · rintro ⟨hx1, hx2⟩
              refine ⟨?_, hx2⟩
              by_cases hxh : x = h
              · exact absurd (hxh ▸ List.mem_toFinset.mpr hmem) hx2
              · omega
            · rintro ⟨hx1, hx2⟩
              exact ⟨by omega, hx2⟩
          rw [hres]
          apply ih j cur dep hclen hjle (by omega) hI1'
          · intro x hx1 hx2
            by_cases hxh : x = h
            · exact hxh ▸ List.mem_toFinset.mpr hmem
            · exact hI3 x (by omega) hx2
          · intro hje
            exact absurd hje (by omega)
          · rw [← hSs]
            exact hf
          · rw [← hSs]
            exact hb
        · by_cases hbr : h < ds.getD j 0
          · -- break branch: the vector is already compact below here
            have hres : move_loop m ds j (h + 1) cur dep = (cur, dep) := by
              unfold move_loop
              rw [if_neg hjm]
              simp only []
              rw [if_neg hmem, if_pos hbr]
            have hdrop_gt : ∀ x ∈ ds.drop j, h < x := by
              intro x hx
              rw [mem_drop_iff] at hx
              obtain ⟨p, hp, hjp, rfl⟩ := hx
              rcases Nat.eq_or_lt_of_le hjp with rfl | hlt2
              · exact hgd ▸ hbr
              · exact lt_trans (hgd ▸ hbr)
                  (sorted_getElem_lt ds hsort j p hjlt hp hlt2)
            have hdropsub : (ds.drop j).toFinset
                ⊆ ds.toFinset ∩ Finset.Ico (h + 1) L := by
              intro x hx
              rw [List.mem_toFinset] at hx
              rw [Finset.mem_inter, Finset.mem_Ico]
              have hxd : x ∈ ds := List.mem_of_mem_drop hx
              exact ⟨List.mem_toFinset.mpr hxd,
                by have := hdrop_gt x hx; omega, hran x hxd⟩
            have hdropcard : (ds.drop j).toFinset.card = m - j := by
              rw [drop_toFinset_card ds hnd j, hlen]
            have hF5 : h + 1 ≤ L - m := by
              have hle := Finset.card_le_card hdropsub
              rw [hdropcard] at hle
              omega
            have hIcoD : ds.toFinset ∩ Finset.Ico (h + 1) (L - m)
                = Finset.Ico (h + 1) (L - m) := by
              rw [Finset.inter_eq_right]
              intro x hx
              rw [Finset.mem_Ico] at hx
              exact hI3 x (by omega) (by omega)
            have hsplit : ds.toFinset ∩ Finset.Ico (h + 1) L
                = (ds.toFinset ∩ Finset.Ico (h + 1) (L - m))
                  ∪ (ds.toFinset ∩ Finset.Ico (L - m) L) := by
              rw [← Finset.inter_union_distrib_left]
              rw [Finset.Ico_union_Ico_eq_Ico hF5 (by omega)]
            have hdisj : Disjoint
                (ds.toFinset ∩ Finset.Ico (h + 1) (L - m))
                (ds.toFinset ∩ Finset.Ico (L - m) L) := by
              rw [Finset.disjoint_left]
              intro x hx1 hx2
              rw [Finset.mem_inter, Finset.mem_Ico] at hx1 hx2
              omega
            have htailcard : (ds.toFinset ∩ Finset.Ico (L - m) L).card
                = m - j := by
              have := Finset.card_union_of_disjoint hdisj
              rw [← hsplit] at this
              rw [hIcoD] at this
              rw [Nat.card_Ico] at this
              omega
            have htake_lt : ∀ y ∈ ds.take j, y < L - m := by
              intro y hy
              by_contra hcon
              have hyD : y ∈ ds := List.mem_of_mem_take hy
              have hsub2 : insert y (ds.drop j).toFinset
                  ⊆ ds.toFinset ∩ Finset.Ico (L - m) L := by
                intro x hx
                rcases Finset.mem_insert.mp hx with rfl | hx2
                · rw [Finset.mem_inter, Finset.mem_Ico]
                  exact ⟨List.mem_toFinset.mpr hyD, by omega, hran x hyD⟩
                · rw [List.mem_toFinset] at hx2
                  have hxd : x ∈ ds := List.mem_of_mem_drop hx2
                  have hyx := take_lt_drop ds hsort j y hy x hx2
                  rw [Finset.mem_inter, Finset.mem_Ico]
                  exact ⟨List.mem_toFinset.mpr hxd, by omega, hran x hxd⟩
              have hnin : y ∉ (ds.drop j).toFinset := by
                rw [List.mem_toFinset]
                intro hcon2
                exact absurd rfl (Nat.ne_of_lt
                  (take_lt_drop ds hsort j y hy y hcon2))
              have hcard2 := Finset.card_le_card hsub2
              rw [Finset.card_insert_of_not_mem hnin, hdropcard,
                  htailcard] at hcard2
              omega
            have hSeq : (Finset.range (h + 1) \ ds.toFinset)
                ∪ (ds.take j).toFinset = Finset.range (L - m) := by
              have hpart := take_drop_toFinset_union ds j
              have htail_sub : ds.toFinset ∩ Finset.Ico (L - m) L
                  ⊆ (ds.drop j).toFinset := by
                intro x hx
                have hxD := (Finset.mem_inter.mp hx).1
                rw [← hpart, Finset.mem_union] at hxD
                rcases hxD with hx2 | hx2
                · have := htake_lt x (List.mem_toFinset.mp hx2)
                  rw [Finset.mem_inter, Finset.mem_Ico] at hx
                  omega
                · exact hx2
              have htail_eq : ds.toFinset ∩ Finset.Ico (L - m) L
                  = (ds.drop j).toFinset := by
                apply Finset.eq_of_subset_of_card_le htail_sub
                rw [hdropcard, htailcard]
              ext x
              simp only [Finset.mem_union, Finset.mem_sdiff,
                Finset.mem_range]
              constructor
              · rintro (⟨hx, -⟩ | hx)
                · omega
                · exact htake_lt x (List.mem_toFinset.mp hx)
              · intro hx
                by_cases hxD : x ∈ ds.toFinset
                · rw [← hpart, Finset.mem_union] at hxD
                  rcases hxD with hx2 | hx2
                  · exact Or.inr hx2
                  · have : x ∈ ds.toFinset ∩ Finset.Ico (L - m) L := by
                      rw [htail_eq]
                      exact hx2
                    rw [Finset.mem_inter, Finset.mem_Ico] at this
                    omega
                · refine Or.inl ⟨?_, hxD⟩
                  by_contra hcon
                  exact hxD (hI3 x (by omega) (by omega))
            rw [hSeq] at hf hb
            rw [hres]
            exact ⟨hclen, hf, hb⟩
          · -- move branch: relocate the source into the next destination
            have hdlh : ds[j] ≤ h := by omega
            have hdD : ds[j] ∈ ds.toFinset :=
              List.mem_toFinset.mpr (List.getElem_mem _)
            have hdL : ds[j] < L := hran _ (List.getElem_mem _)
            have hres : move_loop m ds j (h + 1) cur dep
                = move_loop m ds (j + 1) h
                    (cur.set (ds.getD j 0) (cur.getD h default))
                    (move_fix dep (cur.getD h default) h (ds.getD j 0)) := by
              conv_lhs => unfold move_loop
              rw [if_neg hjm]
              simp only []
              rw [if_neg hmem, if_neg hbr]
            have hSmem : h ∈ (Finset.range (h + 1) \ ds.toFinset)
                ∪ (ds.take j).toFinset := by
              rw [Finset.mem_union, Finset.mem_sdiff, Finset.mem_range]
              exact Or.inl ⟨by omega, fun hcon =>
                hmem (List.mem_toFinset.mp hcon)⟩
            have hdnotS : ds[j] ∉ (Finset.range (h + 1) \ ds.toFinset)
                ∪ (ds.take j).toFinset := by
              rw [Finset.mem_union, Finset.mem_sdiff]
              rintro (⟨-, hcon⟩ | hcon)
              · exact hcon hdD
              · rw [List.mem_toFinset, mem_take_iff] at hcon
                obtain ⟨p, hp, hpj, hpe⟩ := hcon
                have := sorted_getElem_lt ds hsort p j hp hjlt hpj
                omega
            have hmv := live_move num_sites cur dep
              ((Finset.range (h + 1) \ ds.toFinset)
                ∪ (ds.take j).toFinset)
              h ds[j] hf hb hSmem hdnotS (by omega)
            have hsource_ge : L - m ≤ h := by
              have hIcosub : ds.toFinset ∩ Finset.Ico (h + 1) L
                  ⊆ (ds.drop (j + 1)).toFinset := by
                intro x hx
                rw [Finset.mem_inter, Finset.mem_Ico] at hx
                obtain ⟨hxD, hx1, hx2⟩ := hx
                rw [List.mem_toFinset, List.mem_iff_getElem] at hxD
                obtain ⟨p, hp, rfl⟩ := hxD
                have hpj : j < p := by
                  by_contra hcon
                  push_neg at hcon
                  rcases Nat.eq_or_lt_of_le hcon with rfl | hlt2
                  · omega
                  · have := sorted_getElem_lt ds hsort p j hp hjlt hlt2
                    omega
                rw [List.mem_toFinset, mem_drop_iff]
                exact ⟨p, hp, by omega, rfl⟩
              have hle := Finset.card_le_card hIcosub
              rw [drop_toFinset_card ds hnd (j + 1), hlen] at hle
              omega
            have hStrans : insert ds[j]
                ((((Finset.range (h + 1) \ ds.toFinset)
                  ∪ (ds.take j).toFinset)).erase h)
                = (Finset.range h \ ds.toFinset)
                  ∪ (ds.take (j + 1)).toFinset := by
              rw [take_succ_toFinset ds j hjlt]
              ext x
              simp only [Finset.mem_insert, Finset.mem_erase,
                Finset.mem_union, Finset.mem_sdiff, Finset.mem_range]
              constructor
              · rintro (rfl | ⟨hne, (⟨hx1, hx2⟩ | hx2)⟩)
                · exact Or.inr (Or.inl rfl)
                · refine Or.inl ⟨?_, hx2⟩
                  omega
                · exact Or.inr (Or.inr hx2)
              · rintro (⟨hx1, hx2⟩ | hx2)
                · by_cases hxd : x = ds[j]
                  · exact Or.inl hxd
                  · exact Or.inr ⟨by omega, Or.inl ⟨by omega, hx2⟩⟩
                · rcases hx2 with rfl | hx3
                  · exact Or.inl rfl
                  · refine Or.inr ⟨?_, Or.inr hx3⟩
                    intro hcon
                    subst hcon
                    exact hmem (List.mem_of_mem_take
                      (List.mem_toFinset.mp hx3))
            have hI1' : (j + 1)
                + (ds.toFinset ∩ Finset.Ico h L).card = L - h := by
              have hsame : ds.toFinset ∩ Finset.Ico h L
                  = ds.toFinset ∩ Finset.Ico (h + 1) L := by
                ext x
                simp only [Finset.mem_inter, Finset.mem_Ico]
                constructor
                · rintro ⟨hxD, hx1, hx2⟩
                  refine ⟨hxD, ?_, hx2⟩
                  by_cases hxh : x = h
                  · exact absurd (hxh ▸ List.mem_toFinset.mp hxD) hmem
                  · omega
                · rintro ⟨hxD, hx1, hx2⟩
                  exact ⟨hxD, by omega, hx2⟩
              rw [hsame]
              omega
            rw [hres, hgd]
            apply ih (j + 1)
              (cur.set ds[j] (cur.getD h default))
              (move_fix dep (cur.getD h default) h ds[j])
              (by rw [List.length_set]; exact hclen)
              (by omega) (by omega) hI1'
            · intro x hx1 hx2
              omega
            · intro hje
              exact hsource_ge
            · rw [← hStrans]
              exact hmv.1
            · rw [← hStrans]
              exact hmv.2

/-- Auxiliary: a fold whose body only ever appends elements satisfying P
    keeps P for every element of its result. -/
theorem foldl_append_pred {α β : Type} (P : α → Prop)
    (body : List α → β → List α) :
    ∀ (L : List β),
    (∀ acc, ∀ b ∈ L, ∀ x ∈ body acc b, x ∈ acc ∨ P x) →
    ∀ (acc : List α), (∀ x ∈ acc, P x) → ∀ x ∈ L.foldl body acc, P x := by
  intro L
  induction L with
  | nil =>
      intro _ acc hacc x hx
      exact hacc x hx
  | cons b bs ih =>
      intro hmono acc hacc x hx
      rw [List.foldl_cons] at hx
      refine ih ?_ (body acc b) ?_ x hx
      · intro a c hc y hy
        exact hmono a c (List.mem_cons_of_mem _ hc) y hy
      · intro y hy
        rcases hmono acc b (List.mem_cons_self _ _) y hy with h | h
        · exact hacc y h
        · exact h

/-- Auxiliary: a well-formed reaction grounds only valid sites. -/
theorem wf_sid_lt (num_sites : Nat) (r : NPMC.Reaction)
    (hw : r.wf num_sites) :
    ∀ k, k < r.interaction.number_of_sites →
      (r.sid k).toNat < num_sites := by
  intro k hk
  unfold NPMC.Reaction.wf at hw
  rcases hw with ⟨h1, _, h3⟩ | ⟨h1, _, h3, _, h5, _⟩
  · rw [h1] at hk
    interval_cases k
    exact h3
  · rw [h1] at hk
    interval_cases k
    · exact h3
    · exact h5

/-- Auxiliary: every reaction emitted by the regeneration loop of
    update_reactions is well-formed over the model. -/
theorem new_reactions_wf (M : NanoParticle) (state : List Int)
    (fired : NPMC.Reaction) (hm : M.maps_wf)
    (hw : fired.wf M.sites.length) :
    ∀ r ∈ M.new_reactions state fired, r.wf M.sites.length := by
  have hm2 := hm
  unfold NanoParticle.maps_wf at hm2
  obtain ⟨hm1, hm2⟩ := hm2
  intro r hr
  unfold NanoParticle.new_reactions at hr
  refine foldl_append_pred (fun x => x.wf M.sites.length) _ _
    ?_ [] (fun x hx => absurd hx (List.not_mem_nil x)) r hr
  intro acc k hk y hy
  rw [List.mem_range] at hk
  have hsidk := wf_sid_lt M.sites.length fired hw k hk
  simp only [List.mem_append, List.mem_map] at hy
  rcases hy with (hy | hy) | hy
  · exact Or.inl hy
  · obtain ⟨i, hi, rfl⟩ := hy
    refine Or.inr ?_
    unfold NPMC.Reaction.wf
    refine Or.inl ⟨hm1 _ _ i hi, ?_, ?_⟩
    · exact Int.natCast_nonneg _
    · exact hsidk
  · refine Or.inr (foldl_append_pred (fun x => x.wf M.sites.length) _ _
      ?_ [] (fun x hx => absurd hx (List.not_mem_nil x)) _ hy)
    intro acc2 s1 hs1 z hz
    rw [List.mem_range] at hs1
    simp only [ne_eq] at hz
    by_cases hne : (fired.sid k).toNat = s1
    · rw [if_neg (not_not_intro hne)] at hz
      exact Or.inl hz
    · rw [if_pos hne] at hz
      by_cases hdist :
          (M.distance_matrix.getD (fired.sid k).toNat []).getD s1 0
            < M.interaction_radius_bound
      · rw [if_pos hdist] at hz
        simp only [List.mem_append, List.mem_map] at hz
        rcases hz with (hz | hz) | hz
        · exact Or.inl hz
        · obtain ⟨i, hi, rfl⟩ := hz
          refine Or.inr ?_
          unfold NPMC.Reaction.wf
          refine Or.inr ⟨hm2 _ _ _ _ i hi, ?_, ?_, ?_, ?_, ?_⟩
          · exact Int.natCast_nonneg _
          · exact hsidk
          · exact Int.natCast_nonneg _
          · exact hs1
          · intro hc
            have hc2 : (((fired.sid k).toNat : Nat) : Int) = (s1 : Int) := hc
            exact hne (by exact_mod_cast hc2)
        · by_cases hother : (s1 : Int) = fired.sid (1 - k)
          · rw [if_neg (not_not_intro hother)] at hz
            simp at hz
          · rw [if_pos hother] at hz
            rw [List.mem_map] at hz
            obtain ⟨i, hi, rfl⟩ := hz
            refine Or.inr ?_
            unfold NPMC.Reaction.wf
            refine Or.inr ⟨hm2 _ _ _ _ i hi, ?_, ?_, ?_, ?_, ?_⟩
            · exact Int.natCast_nonneg _
            · exact hs1
            · exact Int.natCast_nonneg _
            · exact hsidk
            · intro hc
              have hc2 : (s1 : Int) = (((fired.sid k).toNat : Nat) : Int) := hc
              exact hne (by exact_mod_cast hc2.symm)
      · rw [if_neg hdist] at hz
        exact Or.inl hz

/-- C1: over any nanoparticle model with well-formed lookup tensors, if the
    per-site reaction index invariant holds at a quiescent point and a
    well-formed reaction fires, then after update_reactions the invariant
    holds again for the returned reaction vector and index — the live
    slots are compact (exactly 0..len-1, no holes) — and the new length
    plus the number of removed slots equals the old length plus the number
    of newly generated reactions. -/
theorem update_reactions_invariant (M : NanoParticle) (state : List Int)
    (dep : Nat → Finset Nat) (cur : List NPMC.Reaction)
    (fired : NPMC.Reaction)
    (hm : M.maps_wf) (hw : fired.wf M.sites.length)
    (hinv : NPInv M.sites.length cur dep) :
    NPInv M.sites.length (M.update_reactions state dep cur fired).1
      (M.update_reactions state dep cur fired).2 ∧
    (M.update_reactions state dep cur fired).1.length
        + (removal_set dep fired).card
      = cur.length + (M.new_reactions state fired).length := by
  have hinv2 := hinv
  unfold NPInv at hinv2
  obtain ⟨hfg, hbg⟩ := hinv2
  obtain ⟨hf0, hb0⟩ := (NPInv_iff_live M.sites.length cur dep).mp hinv
  have hrem : remove_phase cur dep fired
      = (removal_set dep fired, fun s => dep s \ removal_set dep fired) :=
    remove_phase_spec M.sites.length cur dep fired hw
      (fun i hi => (hfg i hi).1) hbg
  have hRsub : removal_set dep fired ⊆ Finset.range cur.length := by
    intro i hi
    unfold removal_set at hi
    rw [Finset.mem_biUnion] at hi
    obtain ⟨k, -, hik⟩ := hi
    exact Finset.mem_range.mpr (hbg _ i hik).1
  have hRcard : (removal_set dep fired).card ≤ cur.length := by
    have h1 := Finset.card_le_card hRsub
    simpa using h1
  obtain ⟨hf1, hb1⟩ := live_kill M.sites.length cur dep
    (Finset.range cur.length) (removal_set dep fired) hf0 hb0
  have hdnd : ((removal_set dep fired).sort (· ≤ ·)).Nodup :=
    Finset.sort_nodup _ _
  have hdtf : ((removal_set dep fired).sort (· ≤ ·)).toFinset
      = removal_set dep fired := Finset.sort_toFinset _ _
  have hdlen : ((removal_set dep fired).sort (· ≤ ·)).length
      = (removal_set dep fired).card := Finset.length_sort _
  have hSsub : Finset.range cur.length \ removal_set dep fired
      ⊆ Finset.range cur.length := Finset.sdiff_subset
  have hcompl : Finset.range cur.length
      \ (Finset.range cur.length \ removal_set dep fired)
      = ((removal_set dep fired).sort (· ≤ ·)).toFinset := by
    rw [hdtf, Finset.sdiff_sdiff_self_left]
    exact Finset.inter_eq_right.mpr hRsub
  obtain ⟨S1, g1, g2, g3, g4, g5, g6⟩ :=
    add_phase_spec M.sites.length (M.new_reactions state fired)
      ((removal_set dep fired).sort (· ≤ ·)) cur
      (fun s => dep s \ removal_set dep fired)
      (Finset.range cur.length \ removal_set dep fired)
      hf1 hb1 (new_reactions_wf M state fired hm hw) hdnd hSsub hcompl
  unfold NanoParticle.update_reactions
  rw [hrem]
  simp only []
  set A := add_phase (M.new_reactions state fired)
    ((removal_set dep fired).sort (· ≤ ·)) cur
    (fun s => dep s \ removal_set dep fired) with hA
  split
  next hemp =>
    simp only []
    have hnil : A.2.2 = [] := by
      cases hcase : A.2.2 with
      | nil => rfl
      | cons a l =>
          rw [hcase] at hemp
          simp at hemp
    have hS1 : S1 = Finset.range A.1.length := by
      have h0 : Finset.range A.1.length \ S1 = ∅ := by
        rw [g4, hnil]
        simp
      exact Finset.Subset.antisymm g3
        (Finset.sdiff_eq_empty_iff_subset.mp h0)
    constructor
    · exact (NPInv_iff_live _ _ _).mpr ⟨hS1 ▸ g1, hS1 ▸ g2⟩
    · have hdn : ((removal_set dep fired).sort (· ≤ ·)).length
          ≤ (M.new_reactions state fired).length := by
        rw [g5] at hnil
        exact List.drop_eq_nil_iff.mp hnil
      omega
  next hemp =>
    simp only []
    have hne : A.2.2 ≠ [] := by
      intro hc
      exact hemp (by rw [hc]; rfl)
    have hsorted : List.Pairwise (· < ·) A.2.2 := by
      rw [g5]
      exact List.Pairwise.sublist (List.drop_sublist _ _)
        (Finset.sort_sorted_lt (removal_set dep fired))
    have hranA : ∀ d ∈ A.2.2, d < A.1.length := by
      intro d hd
      have hmem : d ∈ Finset.range A.1.length \ S1 := by
        rw [g4]
        exact List.mem_toFinset.mpr hd
      exact Finset.mem_range.mp (Finset.mem_sdiff.mp hmem).1
    have hSeq : (Finset.range A.1.length \ (A.2.2).toFinset)
        ∪ ((A.2.2).take 0).toFinset = S1 := by
      rw [List.take_zero, List.toFinset_nil, Finset.union_empty,
        ← g4, Finset.sdiff_sdiff_self_left]
      exact Finset.inter_eq_right.mpr g3
    have hml := move_loop_spec M.sites.length A.1.length A.2.2.length
      A.2.2 hsorted rfl hranA A.1.length 0 A.1 A.2.1 rfl (Nat.zero_le _)
      (le_refl _)
      (by rw [Finset.Ico_self, Finset.inter_empty]; simp)
      (fun x h1x h2x => absurd h2x (by omega))
      (fun _ => Nat.sub_le _ _)
      (by rw [hSeq]; exact g1)
      (by rw [hSeq]; exact g2)
    obtain ⟨hL, hmf, hmb⟩ := hml
    set mv := move_loop A.2.2.length A.2.2 0 A.1.length A.1 A.2.1 with hmv
    have hTlen : (mv.1.take (mv.1.length - A.2.2.length)).length
        = A.1.length - A.2.2.length := by
      rw [List.length_take, hL]
      exact Nat.min_eq_left (Nat.sub_le _ _)
    constructor
    · rw [NPInv_iff_live, hTlen]
      constructor
      · intro i hi
        have hi2 := Finset.mem_range.mp hi
        obtain ⟨hilt, hwf2, hreg⟩ := hmf i hi
        have hget : (mv.1.take (mv.1.length - A.2.2.length)).getD i default
            = mv.1.getD i default := by
          apply getD_take_of_lt
          omega
        refine ⟨?_, ?_, ?_⟩
        · rw [hTlen]
          exact hi2
        · rw [hget]
          exact hwf2
        · rw [hget]
          exact hreg
      · intro s i hi
        obtain ⟨hiS, hsite⟩ := hmb s i hi
        have hi2 := Finset.mem_range.mp hiS
        have hget : (mv.1.take (mv.1.length - A.2.2.length)).getD i default
            = mv.1.getD i default := by
          apply getD_take_of_lt
          omega
        rw [hget]
        exact ⟨hiS, hsite⟩
    · have h22 : A.2.2.length
          = ((removal_set dep fired).sort (· ≤ ·)).length
            - (M.new_reactions state fired).length := by
        rw [g5, List.length_drop]
      have h22pos : A.2.2.length ≠ 0 := by
        intro hc
        exact hne (List.eq_nil_of_length_eq_zero hc)
      rw [hTlen]
      omega

/-- Concrete instantiation of the update_reactions invariant: the trivial
    one-site model with empty interaction tensors, empty reaction vector
    and empty per-site index, with a one-site reaction fired at site 0. -/
theorem update_reactions_invariant_witness :
    trivial_model.maps_wf ∧
    trivial_fired.wf trivial_model.sites.length ∧
    NPInv trivial_model.sites.length [] (fun _ => ∅) ∧
    (NPInv trivial_model.sites.length
      (trivial_model.update_reactions [0] (fun _ => ∅) [] trivial_fired).1
      (trivial_model.update_reactions [0] (fun _ => ∅) [] trivial_fired).2 ∧
     (trivial_model.update_reactions [0]
          (fun _ => ∅) [] trivial_fired).1.length
        + (removal_set (fun _ => ∅) trivial_fired).card
      = ([] : List NPMC.Reaction).length
        + (trivial_model.new_reactions [0] trivial_fired).length) := by
  have hm : trivial_model.maps_wf := by
    unfold NanoParticle.maps_wf
    constructor
    · intro sp st i hi
      simp [NanoParticle.one_site_available, trivial_model] at hi
    · intro sp0 sp1 st0 st1 i hi
      simp [NanoParticle.two_site_available, trivial_model] at hi
  have hw : trivial_fired.wf trivial_model.sites.length := by decide
  have hinv : NPInv trivial_model.sites.length [] (fun _ => ∅) := by
    unfold NPInv
    constructor
    · intro i hi
      simp at hi
    · intro s i hi
      simp at hi
  exact ⟨hm, hw, hinv,
    update_reactions_invariant trivial_model [0] (fun _ => ∅) []
      trivial_fired hm hw hinv⟩
